import Mathlib

/-!
Verification development for the dcl-exercise-tool repository.

The repository's three algorithmic components are embedded shallowly over
`List Char`:

* `MetadataParser` (src/services/MetadataParser.js): marker search,
  key/value scanning of the configuration block, validation, removal
  of the block line.
* `CanvasService` (the service holding `detectPlacementElementType`,
  `insertContentAtPlaceholder`, `escapeHtml`, `generateDclEmbed`): the
  two-tier placement lookup and rewriting over an HTML fragment model.
* `ExerciseProcessor` (src/services/ExerciseProcessor.js): the per-unit
  placement loop and the batch loop with progress reporting.

All text is represented as `List Char`.  JavaScript string/regex
behaviour is translated directly from the source; browser DOM
primitives (`innerHTML` parsing, `querySelector`, serialization) are
modelled after the WHATWG fragment parsing/serialization algorithms in
the cases the code exercises.
-/

set_option maxRecDepth 20000

namespace DclTool

/-- String literal helper: the underlying character list. -/
def cs (s : String) : List Char := s.data

/-- JavaScript whitespace (as in `String.prototype.trim` and regex `\s`),
ASCII range. -/
def isJsWS (c : Char) : Bool :=
  c == ' ' || c == '\t' || c == '\n' || c == '\r' || c == '\x0b' || c == '\x0c'

/-- Line terminators recognised by JavaScript multiline anchors. -/
def isNL (c : Char) : Bool := c == '\n' || c == '\r'

/-- `String.prototype.trim`. -/
def jsTrim (l : List Char) : List Char :=
  ((l.dropWhile isJsWS).reverse.dropWhile isJsWS).reverse

/-- Contiguous occurrence of `pat` at index `i` of `t`. -/
def substrAt (t pat : List Char) (i : Nat) : Bool :=
  (t.drop i).take pat.length == pat

/-- Contiguous substring test. -/
def hasSubstr (t pat : List Char) : Bool :=
  (List.range (t.length + 1)).any (substrAt t pat)

instance exceptDecEq {ε α : Type} [DecidableEq ε] [DecidableEq α] :
    DecidableEq (Except ε α)
  | .error x, .error y =>
    if h : x = y then isTrue (h ▸ rfl)
    else isFalse (fun hc => h (by cases hc; rfl))
  | .error _, .ok _ => isFalse (fun hc => by cases hc)
  | .ok _, .error _ => isFalse (fun hc => by cases hc)
  | .ok x, .ok y =>
    if h : x = y then isTrue (h ▸ rfl)
    else isFalse (fun hc => h (by cases hc; rfl))

/-! ## MetadataParser -/

/-- The configuration marker token. -/
def metaMarker : List Char := cs "__metadata__"

/-- Does the marker occur at index `i`? -/
def markerAt (t : List Char) (i : Nat) : Bool :=
  substrAt t metaMarker i

/-- Index after skipping regex-`\s` characters starting at `i`. -/
def skipWS (t : List Char) (i : Nat) : Nat :=
  i + ((t.drop i).takeWhile isJsWS).length

/-- First index `k ≥ j` with `t[k] = ch`. -/
def findCharFrom (t : List Char) (ch : Char) (j : Nat) : Option Nat :=
  (List.range' j (t.length - j)).find? (fun k => t.getD k ' ' == ch)

/-- Attempt to match the tail `\s*=\s*\x7b[^\x7d]*\x7d` of the regex
`/__metadata__\s*=\s*\x7b([^\x7d]*)\x7d/` at a marker occurrence starting at
index `i`.  On success returns `(contentStart, closeBraceIdx)`: the
captured span is `[contentStart, closeBraceIdx)`. -/
def completeAt (t : List Char) (i : Nat) : Option (Nat × Nat) :=
  if markerAt t i then
    let j1 := skipWS t (i + 12)
    if decide (j1 < t.length) && (t.getD j1 ' ' == '=') then
      let j2 := skipWS t (j1 + 1)
      if decide (j2 < t.length) && (t.getD j2 ' ' == '\x7b') then
        match findCharFrom t '\x7d' (j2 + 1) with
        | some c => some (j2 + 1, c)
        | none => none
      else none
    else none
  else none

/-- The leftmost whole-regex match of `/__metadata__\s*=\s*\x7b([^\x7d]*)\x7d/`:
since the pattern starts with the literal marker, the match starts at the
first marker occurrence whose continuation succeeds. -/
def findBlock (t : List Char) : Option (Nat × Nat) :=
  (List.range t.length).findSome? (fun i => completeAt t i)

/-- Captured group of the metadata regex (`match[1]` in the source). -/
def blockContent (t : List Char) : Option (List Char) :=
  (findBlock t).map (fun pr => (t.drop pr.1).take (pr.2 - pr.1))

/-- Values produced by the metadata scanner.  JavaScript is dynamically
typed; the validator distinguishes strings, arrays and numbers, so the
model carries all three shapes (`num` is never produced by the scanner,
which claim C10 makes precise). -/
inductive JValue where
  | str (s : List Char)
  | arr (items : List (List Char))
  | num (n : Int)
deriving DecidableEq, Repr

instance : Inhabited JValue := ⟨.str []⟩

instance : Nonempty (List Char × JValue) := ⟨([], .str [])⟩

/-- `typeof v === 'string'`. -/
def typeofIsString : JValue → Bool
  | .str _ => true
  | _ => false

/-- `typeof v === 'number'`. -/
def typeofIsNumber : JValue → Bool
  | .num _ => true
  | _ => false

/-- A JavaScript object restricted to the shapes the parser produces:
an insertion-ordered association list with key overwrite. -/
abbrev Obj : Type := List (List Char × JValue)

/-- Property assignment `o[k] = v`: overwrite in place, else append. -/
def objInsert (o : Obj) (k : List Char) (v : JValue) : Obj :=
  if o.any (fun p => p.1 == k) then
    o.map (fun p => if p.1 == k then (k, v) else p)
  else o ++ [(k, v)]

/-- Property lookup. -/
def objGet (o : Obj) (k : List Char) : Option JValue :=
  (o.find? (fun p => p.1 == k)).map (fun p => p.2)

/-- Whitespace skipped by the scanner's outer loop (source: `' '`, `'\n'`,
`'\r'`, `'\t'`). -/
def isMetaWS (c : Char) : Bool :=
  c == ' ' || c == '\n' || c == '\r' || c == '\t'

/-- Read the key: consume until `':'` or end, accumulating every
non-whitespace character.  Returns `(key, rest)` where `rest` either
starts with `':'` or is empty. -/
def readKey : List Char → (List Char × List Char)
  | [] => ([], [])
  | c :: rest =>
    if c == ':' then ([], c :: rest)
    else
      match readKey rest with
      | (k, r) => ((if isMetaWS c then k else c :: k), r)

/-- Read a quoted span: `l` starts right after the opening quote `q`;
returns the span and the rest after the closing quote (consuming past a
missing closing quote, as the source's `i++` does). -/
def parseQuoted (q : Char) (l : List Char) : (List Char × List Char) :=
  (l.takeWhile (fun c => !(c == q)), (l.dropWhile (fun c => !(c == q))).drop 1)

/-- Stop characters for an unquoted array item. -/
def arrItemStop (c : Char) : Bool := c == ',' || c == ']' || c == '\n'

/-- Whitespace-or-comma skipped after an array item. -/
def arrSkip (c : Char) : Bool :=
  c == ' ' || c == '\t' || c == ',' || c == '\n' || c == '\r'

/-- The array-parsing loop of `parseMetadataContent` (` content[i] === '['`
branch).  `l` is positioned right after `'['`; returns the collected items
and the rest after the closing `']'`.  Each iteration strictly consumes
input, so `fuel = l.length + 1` reproduces the source loop exactly. -/
def parseArrayLoop (fuel : Nat) (l : List Char) (acc : List (List Char)) :
    List (List Char) × List Char :=
  match fuel with
  | 0 => (acc, l)
  | fuel + 1 =>
    match l with
    | [] => (acc, [])
    | c :: rest =>
      if c == ']' then (acc, rest)
      else
        let l1 := (c :: rest).dropWhile isMetaWS
        match l1 with
        | [] => (acc, [])
        | d :: rest1 =>
          if d == ']' then (acc, rest1)
          else
            match
              (if d == '"' || d == '\x27' then parseQuoted d rest1
               else
                 (jsTrim ((d :: rest1).takeWhile (fun x => !(arrItemStop x))),
                  (d :: rest1).dropWhile (fun x => !(arrItemStop x)))) with
            | (item, l2) =>
              parseArrayLoop fuel (l2.dropWhile arrSkip)
                (if item == ([] : List Char) then acc else acc ++ [item])

/-- Stop characters for an unquoted scalar value. -/
def valStop (c : Char) : Bool := c == ',' || c == '\n' || c == '#'

/-- Separator characters skipped after a stored pair. -/
def pairSkip (c : Char) : Bool :=
  c == ',' || c == ' ' || c == '\t' || c == '\n' || c == '\r'

/-- The character-cursor loop of `parseMetadataContent`.  Each iteration
strictly consumes input, so `fuel = l.length + 1` reproduces the source
loop exactly. -/
def parseLoop (fuel : Nat) (l : List Char) (acc : Obj) : Obj :=
  match fuel with
  | 0 => acc
  | fuel + 1 =>
    let l1 := l.dropWhile isMetaWS
    match l1 with
    | [] => acc
    | c :: rest =>
      if c == '#' then
        parseLoop fuel ((c :: rest).dropWhile (fun x => !(x == '\n'))) acc
      else
        match readKey (c :: rest) with
        | (key, l2) =>
          match l2 with
          | [] => acc
          | _ :: l3 =>
            if key == ([] : List Char) then acc
            else
              match
                (match l3.dropWhile (fun x => x == ' ' || x == '\t') with
                 | [] => ((JValue.str [], []) : JValue × List Char)
                 | d :: rest4 =>
                   if d == '[' then
                     match parseArrayLoop (rest4.length + 1) rest4 [] with
                     | (items, r) => (JValue.arr items, r)
                   else if d == '"' || d == '\x27' then
                     match parseQuoted d rest4 with
                     | (str, r) => (JValue.str str, r)
                   else
                     (JValue.str (jsTrim ((d :: rest4).takeWhile (fun x => !(valStop x)))),
                      (d :: rest4).dropWhile (fun x => !(valStop x)))) with
              | (v, l5) =>
                parseLoop fuel (l5.dropWhile pairSkip) (objInsert acc key v)

/-- `parseMetadataContent` (MetadataParser.js, lines 100-223). -/
def parseMetadataContent (content : List Char) : Obj :=
  parseLoop (content.length + 1) content []

/-- Validation of the optional `course` field. -/
def checkCourse (md : Obj) : Except (List Char) Unit :=
  match objGet md (cs "course") with
  | none => .ok ()
  | some v =>
    if typeofIsNumber v || typeofIsString v then .ok ()
    else .error (cs "Optional metadata field \x27course\x27 should be a number or string")

/-- The required/optional field validation shared verbatim by
`MetadataParser.extractMetadata` (lines 28-86) and
`ExerciseProcessor.validateMetadata` (lines 173-240): `page` must be a
string, `placement` a string or non-empty array, `course` (if present) a
number or string.  (The all-items-are-strings check on arrays cannot fail
in the model because array items are strings by construction.) -/
def validateMetadata (md : Obj) : Except (List Char) Unit :=
  match objGet md (cs "page") with
  | none => .error (cs "Required metadata field \x27page\x27 is missing")
  | some v =>
    if typeofIsString v then
      match objGet md (cs "placement") with
      | none => .error (cs "Required metadata field \x27placement\x27 is missing")
      | some p =>
        match p with
        | .arr items =>
          if items.length == 0 then .error (cs "\x27placement\x27 array cannot be empty")
          else checkCourse md
        | .str _ => checkCourse md
        | .num _ =>
          .error (cs "Metadata field \x27placement\x27 should be a string or an array of strings")
    else .error (cs "Metadata field \x27page\x27 should be a string")

/-- Result of `extractMetadata`: `null` (no marker match), a thrown
error, or the validated metadata object. -/
inductive ExtractResult where
  | noBlock
  | failed (msg : List Char)
  | ok (md : Obj)
deriving DecidableEq, Repr

/-- `extractMetadata` (MetadataParser.js, lines 10-92): regex search,
scan, validation; validation failures are wrapped by the surrounding
`try`/`catch`. -/
def extractMetadata (t : List Char) : ExtractResult :=
  match blockContent t with
  | none => .noBlock
  | some content =>
    let md := parseMetadataContent content
    match validateMetadata md with
    | .error m => .failed (cs "Metadata parsing error: " ++ m)
    | .ok _ => .ok md

/-- First line-terminator index at or after `j` (the line's exclusive
end); `t.length` when the line runs to the end. -/
def lineEnd (t : List Char) (j : Nat) : Nat :=
  match (List.range' j (t.length - j)).find? (fun k => isNL (t.getD k ' ')) with
  | some k => k
  | none => t.length

/-- Positions where the multiline anchor `^` holds: the start, and every
position right after a line terminator. -/
def lineStarts (t : List Char) : List Nat :=
  (List.range (t.length + 1)).filter
    (fun p => p == 0 || isNL (t.getD (p - 1) ' '))

/-- The greedy leading `.*` of `/^.*__metadata__\s*=\s*\x7b[^\x7d]*\x7d.*$/m`
tries marker positions on the line starting at `p` from the right; the
first position whose continuation succeeds wins.  Returns the index one
past the closing brace of that match. -/
def lastLineMatch (t : List Char) (p : Nat) : Option Nat :=
  ((List.range' p (lineEnd t p - p)).reverse).findSome?
    (fun i => (completeAt t i).map (fun pr => pr.2 + 1))

/-- Matched span of the block-line regex: from the start of the first
line carrying a complete block to the end of the line holding the
closing brace (`.*$`). -/
def findRegion (t : List Char) : Option (Nat × Nat) :=
  (lineStarts t).findSome? (fun p => (lastLineMatch t p).map (fun m => (p, lineEnd t m)))

/-- `removeMetadataBlock` (MetadataParser.js, lines 278-283): replace the
matched line span by the empty string, then `trim()` the result. -/
def removeMetadataBlock (t : List Char) : List Char :=
  match findRegion t with
  | none => jsTrim t
  | some pr => jsTrim (t.take pr.1 ++ t.drop pr.2)

/-- `processPythonFile` (MetadataParser.js, lines 290-303). -/
def processPythonFile (t : List Char) : Except (List Char) (Obj × List Char) :=
  match extractMetadata t with
  | .noBlock => .error (cs "No metadata block found in the file")
  | .failed m => .error m
  | .ok md => .ok (md, removeMetadataBlock t)

/-! ## CanvasService: HTML fragment model

The browser primitives the service relies on (`innerHTML` assignment,
`querySelector`, fragment serialization) are modelled after the WHATWG
algorithms on the constructs the code exercises: elements with quoted /
unquoted attributes, comments, text with basic entities; a tag left open
at end of input is discarded; serialization escapes `& < >` in text and
`& "` in attribute values. -/

/-- DOM-ish nodes. -/
inductive HNode where
  | text (s : List Char)
  | comment (s : List Char)
  | elem (tag : List Char) (attrs : List (List Char × List Char)) (children : List HNode)

/-- ASCII lowercase of a character list. -/
def lower (l : List Char) : List Char := l.map Char.toLower

/-- Decode the five basic character entities in parsed text and
attribute values. -/
def decodeEntitiesAux : Nat → List Char → List Char
  | 0, l => l
  | _, [] => []
  | fuel + 1, c :: rest =>
    if c == '&' && rest.take 4 == cs "amp;" then '&' :: decodeEntitiesAux fuel (rest.drop 4)
    else if c == '&' && rest.take 3 == cs "lt;" then '<' :: decodeEntitiesAux fuel (rest.drop 3)
    else if c == '&' && rest.take 3 == cs "gt;" then '>' :: decodeEntitiesAux fuel (rest.drop 3)
    else if c == '&' && rest.take 5 == cs "quot;" then '"' :: decodeEntitiesAux fuel (rest.drop 5)
    else if c == '&' && rest.take 5 == cs "#039;" then '\x27' :: decodeEntitiesAux fuel (rest.drop 5)
    else c :: decodeEntitiesAux fuel rest

/-- Decode the five basic entities (driver). -/
def decodeEntities (l : List Char) : List Char := decodeEntitiesAux (l.length + 1) l

/-- Split at the first occurrence of `pat`; returns the part before and
the part after it. -/
def splitAtSubstr (pat : List Char) : List Char → Option (List Char × List Char)
  | [] => none
  | c :: rest =>
    if (c :: rest).take pat.length == pat then some ([], (c :: rest).drop pat.length)
    else
      match splitAtSubstr pat rest with
      | some (before, after) => some (c :: before, after)
      | none => none

/-- Characters allowed in a tag name. -/
def tagNameChar (c : Char) : Bool := c.isAlpha || c.isDigit

/-- Characters allowed in an attribute name. -/
def attrNameChar (c : Char) : Bool :=
  !(isJsWS c || c == '>' || c == '/' || c == '=')

/-- Parse the attribute section of an open tag (cursor right after the
tag name).  Returns the attributes and the rest after `'>'`, or `none`
when the input ends inside the tag (the tokenizer then discards the tag
and everything after it, as at an EOF-in-tag parse error). -/
def parseAttrs (fuel : Nat) (l : List Char) (acc : List (List Char × List Char)) :
    Option (List (List Char × List Char) × List Char) :=
  match fuel with
  | 0 => none
  | fuel + 1 =>
    match l.dropWhile isJsWS with
    | [] => none
    | c :: rest =>
      if c == '>' then some (acc, rest)
      else if c == '/' then parseAttrs fuel rest acc
      else
        let name := (c :: rest).takeWhile attrNameChar
        let l2 := (c :: rest).dropWhile attrNameChar
        let name := if name == ([] : List Char) then [c] else name
        let l2 := if (c :: rest).takeWhile attrNameChar == ([] : List Char) then rest else l2
        match l2.dropWhile isJsWS with
        | '=' :: l4 =>
          match l4.dropWhile isJsWS with
          | '"' :: l6 =>
            if l6.any (fun x => x == '"') then
              parseAttrs fuel ((l6.dropWhile (fun x => !(x == '"'))).drop 1)
                (acc ++ [(lower name, decodeEntities (l6.takeWhile (fun x => !(x == '"'))))])
            else none
          | '\x27' :: l6 =>
            if l6.any (fun x => x == '\x27') then
              parseAttrs fuel ((l6.dropWhile (fun x => !(x == '\x27'))).drop 1)
                (acc ++ [(lower name, decodeEntities (l6.takeWhile (fun x => !(x == '\x27'))))])
            else none
          | l5 =>
            parseAttrs fuel (l5.dropWhile (fun x => !(isJsWS x || x == '>')))
              (acc ++ [(lower name, decodeEntities (l5.takeWhile (fun x => !(isJsWS x || x == '>'))))])
        | l3 => parseAttrs fuel l3 (acc ++ [(lower name, [])])

/-- Match a close tag `</tag …>` (ASCII case-insensitive) at the head of
`l`; returns the rest after `'>'`. -/
def matchCloseTag (tag : List Char) (l : List Char) : Option (List Char) :=
  match l with
  | '<' :: '/' :: r =>
    if lower (r.takeWhile tagNameChar) == tag then
      match (r.dropWhile tagNameChar).dropWhile isJsWS with
      | '>' :: r3 => some r3
      | _ => none
    else none
  | _ => none

/-- Tolerant fragment parser.  Returns the nodes parsed at this nesting
level and the unconsumed rest, which is empty or starts with a close
tag for an enclosing level (elements whose close tag is missing are
closed implicitly). -/
def parseNodes (fuel : Nat) (l : List Char) : List HNode × List Char :=
  match fuel with
  | 0 => ([], l)
  | fuel + 1 =>
    match l with
    | [] => ([], [])
    | '<' :: rest =>
      if rest.take 3 == cs "!--" then
        match splitAtSubstr (cs "-->") (rest.drop 3) with
        | some (body, after) =>
          match parseNodes fuel after with
          | (sibs, r) => (HNode.comment body :: sibs, r)
        | none => ([HNode.comment (rest.drop 3)], [])
      else
        match rest with
        | [] => ([HNode.text ['<']], [])
        | d :: _ =>
          if d == '/' then ([], '<' :: rest)
          else if d.isAlpha then
            let tag := lower (rest.takeWhile tagNameChar)
            let afterName := rest.dropWhile tagNameChar
            match parseAttrs (afterName.length + 1) afterName [] with
            | none => ([], [])
            | some (attrs, r1) =>
              match parseNodes fuel r1 with
              | (children, r2) =>
                match matchCloseTag tag r2 with
                | some r3 =>
                  match parseNodes fuel r3 with
                  | (sibs, r4) => (HNode.elem tag attrs children :: sibs, r4)
                | none => ([HNode.elem tag attrs children], r2)
          else
            match parseNodes fuel rest with
            | (HNode.text s :: ns, r) => (HNode.text ('<' :: s) :: ns, r)
            | (ns, r) => (HNode.text ['<'] :: ns, r)
    | _ =>
      match parseNodes fuel (l.dropWhile (fun x => !(x == '<'))) with
      | (sibs, r) =>
        (HNode.text (decodeEntities (l.takeWhile (fun x => !(x == '<')))) :: sibs, r)

/-- Top-level driver: consumes stray close tags between runs. -/
def parseTop (fuel : Nat) (l : List Char) : List HNode :=
  match fuel with
  | 0 => []
  | fuel + 1 =>
    match l with
    | [] => []
    | _ =>
      match parseNodes (l.length + 1) l with
      | (ns, []) => ns
      | (ns, r) =>
        ns ++ parseTop fuel ((r.dropWhile (fun x => !(x == '>'))).drop 1)

/-- `tempDiv.innerHTML = html`. -/
def parseHTML (l : List Char) : List HNode := parseTop (l.length + 1) l

/-- Serialization escape for text nodes (`& < >`; quotes untouched). -/
def escSerText : Char → List Char
  | '&' => cs "&amp;"
  | '<' => cs "&lt;"
  | '>' => cs "&gt;"
  | c => [c]

/-- Serialized form of a text node's data. -/
def serializeText (s : List Char) : List Char := (s.map escSerText).flatten

/-- Serialization escape for attribute values (`& "`). -/
def escSerAttr : Char → List Char
  | '&' => cs "&amp;"
  | '"' => cs "&quot;"
  | c => [c]

mutual

/-- Fragment serialization of one node (reading back `innerHTML`). -/
def serializeNode : HNode → List Char
  | .text s => serializeText s
  | .comment s => cs "<!--" ++ s ++ cs "-->"
  | .elem tag attrs children =>
    '<' :: tag
      ++ (attrs.map (fun a => ' ' :: a.1 ++ cs "=\"" ++ (a.2.map escSerAttr).flatten ++ ['"'])).flatten
      ++ '>' :: serializeNodes children ++ cs "</" ++ tag ++ ['>']

/-- Fragment serialization of a node list. -/
def serializeNodes : List HNode → List Char
  | [] => []
  | n :: ns => serializeNode n ++ serializeNodes ns

end

/-- Attribute test used by the selector `tag[data-code-placement="key"]`. -/
def attrHas (attrs : List (List Char × List Char)) (name value : List Char) : Bool :=
  match attrs.find? (fun a => a.1 == name) with
  | some a => a.2 == value
  | none => false

mutual

/-- Does the subtree rooted here contain a matching element
(pre-order)? -/
def domExistsNode (tag key : List Char) : HNode → Bool
  | .elem t attrs children =>
    (t == tag && attrHas attrs (cs "data-code-placement") key)
      || domExistsNodes tag key children
  | _ => false

/-- Does the forest contain a matching element (pre-order)? -/
def domExistsNodes (tag key : List Char) : List HNode → Bool
  | [] => false
  | n :: ns => domExistsNode tag key n || domExistsNodes tag key ns

end

mutual

/-- Rewrite the first matching element (pre-order) with `f`; returns the
rewritten tree and the rewritten element. -/
def domModifyNode (tag key : List Char) (f : HNode → HNode) : HNode → Option (HNode × HNode)
  | .elem t attrs children =>
    if t == tag && attrHas attrs (cs "data-code-placement") key then
      some (f (.elem t attrs children), f (.elem t attrs children))
    else
      match domModifyNodes tag key f children with
      | some (children2, changed) => some (.elem t attrs children2, changed)
      | none => none
  | _ => none

/-- Rewrite the first matching element in a forest. -/
def domModifyNodes (tag key : List Char) (f : HNode → HNode) :
    List HNode → Option (List HNode × HNode)
  | [] => none
  | n :: ns =>
    match domModifyNode tag key f n with
    | some (n2, changed) => some (n2 :: ns, changed)
    | none =>
      match domModifyNodes tag key f ns with
      | some (ns2, changed) => some (n :: ns2, changed)
      | none => none

end

/-! ## CanvasService: placement lookup and rewriting -/

/-- Split into maximal runs of non-separator characters (empty words
dropped, as the callers' `filter(c => c)` does). -/
def wordsByAux (p : Char → Bool) : Nat → List Char → List (List Char)
  | 0, _ => []
  | fuel + 1, l =>
    match l.dropWhile p with
    | [] => []
    | c :: rest =>
      (c :: rest.takeWhile (fun x => !(p x)))
        :: wordsByAux p fuel (rest.dropWhile (fun x => !(p x)))

/-- Split on separator runs. -/
def wordsBy (p : Char → Bool) (l : List Char) : List (List Char) :=
  wordsByAux p (l.length + 1) l

/-- Ordered-set view of a `class` attribute (duplicates dropped,
first occurrence kept), as `classList` exposes it. -/
def dedupKeepFirstAux : Nat → List (List Char) → List (List Char)
  | 0, _ => []
  | _, [] => []
  | fuel + 1, x :: xs => x :: dedupKeepFirstAux fuel (xs.filter (fun y => !(y == x)))

/-- Duplicate removal keeping first occurrences (driver). -/
def dedupKeepFirst (l : List (List Char)) : List (List Char) :=
  dedupKeepFirstAux (l.length + 1) l

/-- `classList.add` (token appended unless present). -/
def classAddToken (toks : List (List Char)) (c : List Char) : List (List Char) :=
  if toks.any (fun t => t == c) then toks else toks ++ [c]

/-- Space-joined serialization of a token list. -/
def joinSpace : List (List Char) → List Char
  | [] => []
  | [x] => x
  | x :: xs => x ++ ' ' :: joinSpace xs

/-- Class tokens of a `class` attribute value. -/
def classTokens (s : List Char) : List (List Char) :=
  dedupKeepFirst (wordsBy isJsWS s)

/-- The `classList` mutations of the structural PRE path: add the
`line-numbers` marker when requested and absent, then each custom class
unless present.  When no add fires, the attribute keeps its original
value; otherwise every add reserialises the token set. -/
def classListTarget (orig : List Char) (includeLN : Bool) (customs : List (List Char)) :
    List Char :=
  let toks := classTokens orig
  let t1 :=
    if includeLN && !(toks.any (fun t => t == cs "line-numbers")) then
      toks ++ [cs "line-numbers"]
    else toks
  let t2 := customs.foldl classAddToken t1
  if t2 == toks then orig else joinSpace t2

/-- Set (or create, appended last) an attribute. -/
def attrSet (attrs : List (List Char × List Char)) (name value : List Char) :
    List (List Char × List Char) :=
  if attrs.any (fun a => a.1 == name) then
    attrs.map (fun a => if a.1 == name then (name, value) else a)
  else attrs ++ [(name, value)]

/-- Structural PRE rewrite: update classes, then replace the children by
a `code.language-python` element whose text is the raw content
(`textContent` assignment). -/
def preMutation (content : List Char) (includeLN : Bool) (customs : List (List Char)) :
    HNode → HNode
  | .elem t attrs _ =>
    let orig := ((attrs.find? (fun a => a.1 == cs "class")).map (fun a => a.2)).getD []
    let newClass := classListTarget orig includeLN customs
    let attrs2 := if newClass == orig then attrs else attrSet attrs (cs "class") newClass
    .elem t attrs2 [.elem (cs "code") [(cs "class", cs "language-python")] [.text content]]
  | n => n

/-- Structural BLOCK rewrite: `placeholder.innerHTML = content` parses
the assigned fragment; reading the document back re-serializes it. -/
def divMutation (content : List Char) : HNode → HNode
  | .elem t attrs _ => .elem t attrs (parseHTML content)
  | n => n

/-- Case-insensitive occurrence of `pat` at index `i` (regex flag `i`). -/
def substrAtCI (t pat : List Char) (i : Nat) : Bool :=
  lower ((t.drop i).take pat.length) == lower pat

/-- Match the literal `data-code-placement=["']key["']` at index `j`
(case-insensitively); returns the index after the closing quote. -/
def attrPatAt (t key : List Char) (j : Nat) : Option Nat :=
  if substrAtCI t (cs "data-code-placement=") j then
    let q := t.getD (j + 20) ' '
    if (q == '"' || q == '\x27') && substrAtCI t key (j + 21) then
      let q2 := t.getD (j + 21 + key.length) ' '
      if (q2 == '"' || q2 == '\x27') && decide (j + 22 + key.length ≤ t.length) then
        some (j + 22 + key.length)
      else none
    else none
  else none

/-- Walk the `[^>]*` span inside an open tag looking for the attribute
pattern. -/
def scanForAttr (t key : List Char) : Nat → Nat → Option Nat
  | 0, _ => none
  | fuel + 1, j =>
    if decide (j < t.length) && !(t.getD j ' ' == '>') then
      match attrPatAt t key j with
      | some e => some e
      | none => scanForAttr t key fuel (j + 1)
    else none

/-- Match of `<TAG[^>]*data-code-placement=["']KEY["'][^>]*>` (flag `i`)
starting at index `i`; returns the index after the closing `'>'`. -/
def textualFind (tag t key : List Char) (i : Nat) : Option Nat :=
  if substrAtCI t ('<' :: tag) i then
    match scanForAttr t key (t.length + 1) (i + 1 + tag.length) with
    | some a => (findCharFrom t '>' a).map (fun g => g + 1)
    | none => none
  else none

/-- `.test` of the detection regex. -/
def textualExists (tag t key : List Char) : Bool :=
  (List.range t.length).any (fun i => (textualFind tag t key i).isSome)

/-- The two recognised placement element kinds. -/
inductive ElemKind where
  | pre
  | div
deriving DecidableEq, Repr

/-- Tag name of a kind. -/
def ElemKind.tag : ElemKind → List Char
  | .pre => cs "pre"
  | .div => cs "div"

/-- `detectPlacementElementType` (CanvasService, lines 114-146):
structural lookup `pre` before `div`, then the textual pattern scan in
the same order; errors are prefixed by the surrounding `try`/`catch`. -/
def detectPlacementElementType (html key : List Char) : Except (List Char) ElemKind :=
  let nodes := parseHTML html
  if domExistsNodes (cs "pre") key nodes then .ok .pre
  else if domExistsNodes (cs "div") key nodes then .ok .div
  else if textualExists (cs "pre") html key then .ok .pre
  else if textualExists (cs "div") html key then .ok .div
  else
    .error (cs "Failed to detect element type: Placeholder with data-code-placement=\""
      ++ key ++ cs "\" not found")

/-- First case-insensitive occurrence of `pat` at or after `g`. -/
def findSubstrCIFrom (t pat : List Char) (g : Nat) : Option Nat :=
  (List.range' g (t.length - g)).find? (fun j => substrAtCI t pat j)

/-- Leftmost match span of the fallback regex
`<TAG[^>]*data-code-placement=["']KEY["'][^>]*>.*?</TAG>` (flags `is`). -/
def fallbackSpan (tag t key : List Char) : Option (Nat × Nat) :=
  (List.range t.length).findSome? (fun i =>
    match textualFind tag t key i with
    | some g =>
      match findSubstrCIFrom t ('<' :: '/' :: tag ++ ['>']) g with
      | some c => some (i, c + tag.length + 3)
      | none => none
    | none => none)

/-- First match of `/class=["']([^"']*)["']/` in `s`; the captured
group. -/
def classCapture (s : List Char) : Option (List Char) :=
  (List.range s.length).findSome? (fun j =>
    if substrAt s (cs "class=") j then
      let q := s.getD (j + 6) ' '
      if q == '"' || q == '\x27' then
        let cap := (s.drop (j + 7)).takeWhile (fun c => !(c == '"' || c == '\x27'))
        if decide (j + 7 + cap.length < s.length) then some cap else none
      else none
    else none)

/-- `escapeHtml` (CanvasService, lines 257-266). -/
def escChar : Char → List Char
  | '&' => cs "&amp;"
  | '<' => cs "&lt;"
  | '>' => cs "&gt;"
  | '"' => cs "&quot;"
  | '\x27' => cs "&#039;"
  | c => [c]

/-- `escapeHtml`: global replacement of the five special characters. -/
def escapeHtml (t : List Char) : List Char := (t.map escChar).flatten

/-- `generateDclEmbed` (CanvasService, lines 273-279). -/
def generateDclEmbed (code : List Char) : List Char :=
  cs "<div data-datacamp-exercise data-lang=\"python\">\n  <code data-type=\"sample-code\">\n"
    ++ code ++ cs "\n  </code>\n</div>"

/-- `classesToAdd` of the textual fallback path: the whole existing
class string as one unit, the `line-numbers` marker guarded by a
substring test, then the custom classes filtered against that list. -/
def fallbackClassesToAdd (existing : List Char) (includeLN : Bool)
    (customClasses : List Char) : List (List Char) :=
  let base := if existing == ([] : List Char) then [] else [existing]
  let base :=
    if includeLN && !(hasSubstr existing (cs "line-numbers")) then
      base ++ [cs "line-numbers"]
    else base
  base ++ (wordsBy isJsWS customClasses).filter (fun c => !(base.any (fun b => b == c)))

/-- Replacement string of the fallback PRE branch. -/
def fallbackPreReplacement (tag key escaped : List Char) (classes : List (List Char)) :
    List Char :=
  let preClass :=
    if classes == ([] : List (List Char)) then []
    else cs " class=\"" ++ joinSpace classes ++ ['"']
  '<' :: tag ++ preClass ++ cs " data-code-placement=\"" ++ key
    ++ cs "\"><code class=\"language-python\">" ++ escaped ++ cs "</code></" ++ tag ++ ['>']

/-- Replacement string of the fallback BLOCK branch. -/
def fallbackDivReplacement (tag key content : List Char) : List Char :=
  '<' :: tag ++ cs " data-code-placement=\"" ++ key ++ cs "\">" ++ content
    ++ cs "</" ++ tag ++ ['>']

/-- `GetSubstitution` of JavaScript `String.replace` with a string
pattern (no capture groups): in the replacement string `$$` yields
`$`, `$&` the matched substring, `$\x60` the portion before the match
and `$\x27` the portion after it; any other `$`-sequence stays
literal. -/
def replaceSubstitution (matched before after : List Char) : List Char → List Char
  | [] => []
  | c :: rest =>
    if c == '$' then
      match rest with
      | [] => ['$']
      | d :: rest2 =>
        if d == '$' then '$' :: replaceSubstitution matched before after rest2
        else if d == '&' then matched ++ replaceSubstitution matched before after rest2
        else if d == '\x60' then before ++ replaceSubstitution matched before after rest2
        else if d == '\x27' then after ++ replaceSubstitution matched before after rest2
        else '$' :: replaceSubstitution matched before after (d :: rest2)
    else c :: replaceSubstitution matched before after rest

/-- `insertContentAtPlaceholder` (CanvasService, lines 158-250). -/
def insertContentAtPlaceholder (html key content : List Char)
    (isRawCode includeLineNumbers : Bool) (customClasses : List Char) :
    Except (List Char) (List Char) :=
  match detectPlacementElementType html key with
  | .error m => .error (cs "Failed to insert content at placeholder: " ++ m)
  | .ok et =>
    let tag := et.tag
    let nodes := parseHTML html
    let customs := wordsBy isJsWS customClasses
    let mut' : HNode → HNode :=
      if (et == ElemKind.pre) || isRawCode then preMutation content includeLineNumbers customs
      else divMutation content
    match domModifyNodes tag key mut' nodes with
    | some (nodes2, _) => .ok (serializeNodes nodes2)
    | none =>
      match fallbackSpan tag html key with
      | none =>
        .error (cs "Failed to insert content at placeholder: Placeholder with data-code-placement=\""
          ++ key ++ cs "\" not found")
      | some (s0, e0) =>
        if (et == ElemKind.pre) || isRawCode then
          .ok (html.take s0
            ++ replaceSubstitution ((html.drop s0).take (e0 - s0)) (html.take s0) (html.drop e0)
              (fallbackPreReplacement tag key (escapeHtml content)
                (fallbackClassesToAdd
                  ((classCapture ((html.drop s0).take (e0 - s0))).getD [])
                  includeLineNumbers customClasses))
            ++ html.drop e0)
        else
          .ok (html.take s0
            ++ replaceSubstitution ((html.drop s0).take (e0 - s0)) (html.take s0) (html.drop e0)
              (fallbackDivReplacement tag key content)
            ++ html.drop e0)

/-! ## ExerciseProcessor -/

/-- Payload of a successful unit: the page written and the body passed
to `updatePage`, plus the per-placement detail. -/
structure UnitSuccess where
  page : List Char
  writtenBody : List Char
  placements : List (List Char × ElemKind)
deriving DecidableEq, Repr

/-- Outcome of `processSingleFile`.  A failure carries the thrown
message and, when the throw happened inside the placement loop, the
in-memory `updatedContent` at that moment; `updatePage` is invoked
exactly on success (with `writtenBody`). -/
inductive UnitResult where
  | success (s : UnitSuccess)
  | failure (msg : List Char) (inMemoryBody : Option (List Char))
deriving DecidableEq, Repr

/-- The `updatePage` invocations of one unit. -/
def unitWrites : UnitResult → List (List Char × List Char)
  | .success s => [(s.page, s.writtenBody)]
  | .failure _ _ => []

/-- The error enhancement of `processSingleFile`'s outer catch. -/
def wrapUnitError (filePath m : List Char) : List Char :=
  cs "Error processing \x27" ++ filePath ++ cs "\x27: " ++ m

/-- Body of one placement-loop iteration (ExerciseProcessor.js, lines
278-324): detect the kind, render raw code for PRE / the DCL embed for
BLOCK, insert. -/
def placementStepRaw (includeLN : Bool) (code body key : List Char) :
    Except (List Char) (List Char × ElemKind) :=
  match detectPlacementElementType body key with
  | .error m => .error m
  | .ok et =>
    match insertContentAtPlaceholder body key
        (if et == ElemKind.pre then code else generateDclEmbed code)
        (et == ElemKind.pre) includeLN [] with
    | .error m => .error m
    | .ok b => .ok (b, et)

/-- One placement-loop iteration with its catch clause: any error is
rethrown as `Placement '<key>' not found in page '<page>': <msg>`. -/
def placementStep (includeLN : Bool) (pageName code body key : List Char) :
    Except (List Char) (List Char × ElemKind) :=
  match placementStepRaw includeLN code body key with
  | .error m =>
    .error (cs "Placement \x27" ++ key ++ cs "\x27 not found in page \x27" ++ pageName
      ++ cs "\x27: " ++ m)
  | .ok r => .ok r

/-- The placement loop: keys applied sequentially against the
progressively updated body.  A failure carries the in-memory body at
the moment of the throw (the local `updatedContent`). -/
def runPlacements (includeLN : Bool) (pageName code body : List Char)
    (keys : List (List Char)) :
    Except (List Char × List Char) (List Char × List (List Char × ElemKind)) :=
  match keys with
  | [] => .ok (body, [])
  | k :: ks =>
    match placementStep includeLN pageName code body k with
    | .error m => .error (m, body)
    | .ok (b, et) =>
      match runPlacements includeLN pageName code b ks with
      | .error e => .error e
      | .ok (bf, infos) => .ok (bf, (k, et) :: infos)

/-- `Array.isArray(metadata.placement) ? metadata.placement :
[metadata.placement]`.  (The `num` case is unreachable: validation
rejects a numeric placement before this point.) -/
def placementKeys : JValue → List (List Char)
  | .arr items => items
  | .str s => [s]
  | .num _ => []

/-- `processSingleFile` (ExerciseProcessor.js, lines 247-352) with its
collaborators supplied as parameters: `fileContent` is the GitHub read
result, `pages` the Canvas page store (`getPage`, whose 404 raises
`Page not found`).  The final `updatePage` is modelled as always
accepted; a failure result means it was never reached. -/
def processSingleFile (includeLN : Bool) (pages : List Char → Option (List Char))
    (filePath fileContent : List Char) : UnitResult :=
  match processPythonFile fileContent with
  | .error m => .failure (wrapUnitError filePath m) none
  | .ok (md, code) =>
    match validateMetadata md with
    | .error m => .failure (wrapUnitError filePath m) none
    | .ok _ =>
      let pageName :=
        match objGet md (cs "page") with
        | some (.str s) => s
        | _ => []
      match pages pageName with
      | none => .failure (wrapUnitError filePath (cs "Page not found: " ++ pageName)) none
      | some body0 =>
        match runPlacements includeLN pageName code body0
            (placementKeys ((objGet md (cs "placement")).getD (.str []))) with
        | .error (m, bmem) => .failure (wrapUnitError filePath m) (some bmem)
        | .ok (bf, infos) => .success ⟨pageName, bf, infos⟩

/-- One `onProgress` invocation. -/
structure ProgressCall where
  processed : Nat
  total : Nat
  currentFile : List Char
  progress : Nat
deriving DecidableEq, Repr

/-- Is a unit outcome a failure? -/
def isFailure : UnitResult → Bool
  | .failure _ _ => true
  | .success _ => false

/-- The per-file loop of `processExercises` (lines 109-147): a progress
call before each unit, the unit processed with its own try/catch, the
result recorded either way, `onError` notified on failure. -/
def processLoop (proc : List Char → UnitResult) (total : Nat) :
    List (List Char) → Nat →
    List (List Char × UnitResult) × List ProgressCall × List (List Char × List Char)
  | [], _ => ([], [], [])
  | f :: fs, processed =>
    match processLoop proc total fs (processed + 1) with
    | (rs, ps, es) =>
      ((f, proc f) :: rs,
       ⟨processed, total, f, processed * 100 / total⟩ :: ps,
       (match proc f with
        | .failure m _ => [(f, m)]
        | .success _ => []) ++ es)

/-- The aggregate report returned by `processExercises`. -/
structure BatchReport where
  totalFiles : Nat
  processedFiles : Nat
  successCount : Nat
  errorCount : Nat
  results : List (List Char × UnitResult)
deriving DecidableEq, Repr

/-- Full observable outcome of a run: the report, the `onProgress`
calls in order, and the `onError` calls in order. -/
structure BatchOutput where
  report : BatchReport
  progressCalls : List ProgressCall
  errorCalls : List (List Char × List Char)
deriving DecidableEq, Repr

/-- `processExercises` (ExerciseProcessor.js, lines 87-167),
parametrised by the per-unit processor (the source's
`this.processSingleFile`) and the discovered file list (the
`findPythonFiles` collaborator result). -/
def processExercises (proc : List Char → UnitResult) (files : List (List Char)) :
    Except (List Char) BatchOutput :=
  if files.length == 0 then
    .error (cs "Processing failed: No Python files found in the selected directory")
  else
    match processLoop proc files.length files 0 with
    | (rs, ps, es) =>
      .ok ⟨⟨files.length, files.length,
            (rs.filter (fun e => !(isFailure e.2))).length,
            (rs.filter (fun e => isFailure e.2)).length,
            rs⟩,
           ps ++ [⟨files.length, files.length, [], 100⟩],
           es⟩

/-- Body after successfully applying the first placement keys of a
unit, in order (`none` when one of them fails). -/
def applyPrefix (includeLN : Bool) (pageName code : List Char) :
    List Char → List (List Char) → Option (List Char)
  | body, [] => some body
  | body, k :: ks =>
    match placementStep includeLN pageName code body k with
    | .error _ => none
    | .ok (b, _) => applyPrefix includeLN pageName code b ks

/-- Example unit: a two-key placement array. -/
def exFileContent : List Char :=
  cs "__metadata__ = \x7bpage: \x27pg\x27, placement: [\x27a\x27, \x27b\x27]\x7d\nprint(1)"

/-- Example page body carrying only the first placement key. -/
def exBody : List Char := cs "<p>t</p><pre data-code-placement=\"a\">old</pre>"

/-- Example page store. -/
def exPages (s : List Char) : Option (List Char) :=
  if s == cs "pg" then some exBody else none

/-- Number of occurrences of the configuration marker. -/
def markerCount (t : List Char) : Nat :=
  ((List.range t.length).filter (fun i => markerAt t i)).length

/-! ## Scanner invariants -/

/-- Shape invariant of scanner-produced values: strings, or arrays of
non-empty strings; never numbers. -/
def goodVal : JValue → Prop
  | .str _ => True
  | .arr items => ∀ x ∈ items, x ≠ []
  | .num _ => False

theorem push_nonempty (acc : List (List Char)) (item : List Char)
    (h : ∀ x ∈ acc, x ≠ []) :
    ∀ x ∈ (if item == ([] : List Char) then acc else acc ++ [item]), x ≠ [] := by
  split
  · exact h
  · next hne =>
    intro x hx
    rcases List.mem_append.mp hx with hm | hm
    · exact h x hm
    · simp only [List.mem_singleton] at hm
      subst hm
      simpa using hne

theorem parseArrayLoop_good (fuel : Nat) :
    ∀ (l : List Char) (acc : List (List Char)), (∀ x ∈ acc, x ≠ []) →
      ∀ x ∈ (parseArrayLoop fuel l acc).1, x ≠ [] := by
  induction fuel with
  | zero => intro l acc h; simpa [parseArrayLoop] using h
  | succ fuel ih =>
    intro l acc h
    simp only [parseArrayLoop]
    split
    · simpa using h
    · split
      · simpa using h
      · split
        · simpa using h
        · split
          · simpa using h
          · exact ih _ _ (push_nonempty _ _ h)

theorem objInsert_good {P : JValue → Prop} (o : Obj) (k : List Char) (v : JValue)
    (ho : ∀ p ∈ o, P p.2) (hv : P v) : ∀ p ∈ objInsert o k v, P p.2 := by
  unfold objInsert
  split
  · intro p hp
    rcases List.mem_map.mp hp with ⟨q, hq, he⟩
    by_cases hk : (q.1 == k) = true
    · rw [if_pos hk] at he; cases he; exact hv
    · rw [if_neg hk] at he
      subst he
      exact ho _ hq
  · intro p hp
    rcases List.mem_append.mp hp with hm | hm
    · exact ho p hm
    · simp only [List.mem_singleton] at hm
      subst hm
      exact hv

theorem parseLoop_good (fuel : Nat) :
    ∀ (l : List Char) (acc : Obj), (∀ p ∈ acc, goodVal p.2) →
      ∀ p ∈ parseLoop fuel l acc, goodVal p.2 := by
  induction fuel with
  | zero => intro l acc h; simpa [parseLoop] using h
  | succ fuel ih =>
    intro l acc h
    simp only [parseLoop]
    split
    · exact h
    · split
      · exact ih _ _ h
      · split
        · exact h
        · split
          · exact h
          · refine ih _ _ (objInsert_good _ _ _ h ?_)
            split
            · trivial
            · split
              · exact parseArrayLoop_good _ _ _ (by intro x hx; cases hx)
              · split
                · trivial
                · trivial

theorem parseMetadataContent_good (content : List Char) :
    ∀ p ∈ parseMetadataContent content, goodVal p.2 :=
  parseLoop_good _ _ _ (by intro p hp; cases hp)

/-- Membership from an `objGet` hit. -/
theorem objGet_mem (o : Obj) (k : List Char) (v : JValue)
    (h : objGet o k = some v) : ∃ p ∈ o, p.2 = v := by
  unfold objGet at h
  cases hf : o.find? (fun p => p.1 == k) with
  | none => rw [hf] at h; cases h
  | some p =>
    rw [hf] at h
    cases h
    exact ⟨p, List.mem_of_find?_eq_some hf, rfl⟩

/-- Values of extracted metadata satisfy the scanner invariant. -/
theorem extract_good (t : List Char) (md : Obj) (h : extractMetadata t = .ok md) :
    ∀ p ∈ md, goodVal p.2 := by
  unfold extractMetadata at h
  cases hb : blockContent t with
  | none => rw [hb] at h; cases h
  | some content =>
    rw [hb] at h
    simp only at h
    split at h
    · cases h
    · cases h
      exact parseMetadataContent_good content

/-- An `extractMetadata` success implies the shared validation
succeeded on the very same object. -/
theorem extract_validates (t : List Char) (md : Obj)
    (h : extractMetadata t = .ok md) : validateMetadata md = .ok () := by
  unfold extractMetadata at h
  cases hb : blockContent t with
  | none => rw [hb] at h; cases h
  | some content =>
    rw [hb] at h
    simp only at h
    split at h
    · cases h
    · next a heq =>
      cases h
      cases a
      exact heq

/-- Shapes forced by a successful validation. -/
theorem validate_ok_shape (md : Obj) (h : validateMetadata md = .ok ()) :
    (∃ s, objGet md (cs "page") = some (.str s)) ∧
    ((∃ s, objGet md (cs "placement") = some (.str s)) ∨
      (∃ items, objGet md (cs "placement") = some (.arr items) ∧ items ≠ [])) := by
  unfold validateMetadata at h
  cases hp : objGet md (cs "page") with
  | none => rw [hp] at h; cases h
  | some v =>
    rw [hp] at h
    cases v with
    | str s =>
      simp only [typeofIsString, if_true] at h
      refine ⟨⟨s, rfl⟩, ?_⟩
      cases hq : objGet md (cs "placement") with
      | none => rw [hq] at h; cases h
      | some p =>
        rw [hq] at h
        cases p with
        | str s2 => exact Or.inl ⟨s2, rfl⟩
        | arr items =>
          refine Or.inr ⟨items, rfl, ?_⟩
          intro hnil
          subst hnil
          simp at h
        | num n => cases h
    | arr items => simp only [typeofIsString] at h; cases h
    | num n => simp only [typeofIsString] at h; cases h

/-! ## Claims -/

/-- C9: the capture of the configuration regex ends at the first
closing brace after the marker, even when that brace sits inside a
quoted string value: on
`__metadata__ = \x7bpage: 'p', placement: 'x', course: 'a\x7db'\x7d`
the captured span stops right before the brace inside `'a\x7db'`, so
`extract` sees only the pairs before it, parses `course` as the
unterminated string `a`, and silently drops the rest of the block. -/
theorem C9_capture_ignores_quoting :
    blockContent (cs "__metadata__ = \x7bpage: \x27p\x27, placement: \x27x\x27, course: \x27a\x7db\x27\x7d")
        = some (cs "page: \x27p\x27, placement: \x27x\x27, course: \x27a") ∧
      extractMetadata (cs "__metadata__ = \x7bpage: \x27p\x27, placement: \x27x\x27, course: \x27a\x7db\x27\x7d")
        = .ok [(cs "page", .str (cs "p")), (cs "placement", .str (cs "x")),
               (cs "course", .str (cs "a"))] := by
  constructor
  · decide
  · decide

/-- C8 counterexample: a block whose `page` is the empty string passes
extraction and validation, so the data-model invariant `page`
non-empty does not hold of every value that passes. -/
theorem C8_counterexample_empty_page_passes :
    extractMetadata (cs "__metadata__ = \x7bpage: \x27\x27, placement: \x27x\x27\x7d")
        = .ok [(cs "page", .str []), (cs "placement", .str (cs "x"))] ∧
      objGet [(cs "page", JValue.str []), (cs "placement", JValue.str (cs "x"))]
        (cs "page") = some (.str []) := by
  constructor
  · decide
  · decide

/-- C8 (amended): every metadata value that passes extraction and
validation has a string `page` and a string-or-array `placement`; the
array form is non-empty and each of its entries is a non-empty string.
(`page` and a scalar `placement` may be empty strings: validation only
checks their type.) -/
theorem C8_validated_shape_invariant (t : List Char) (md : Obj)
    (h : extractMetadata t = .ok md) :
    (∃ s, objGet md (cs "page") = some (.str s)) ∧
    ((∃ s, objGet md (cs "placement") = some (.str s)) ∨
      (∃ items, objGet md (cs "placement") = some (.arr items) ∧ items ≠ [] ∧
        ∀ x ∈ items, x ≠ [])) := by
  have hval := validate_ok_shape md (extract_validates t md h)
  have hgood := extract_good t md h
  refine ⟨hval.1, ?_⟩
  rcases hval.2 with hstr | ⟨items, hq, hne⟩
  · exact Or.inl hstr
  · refine Or.inr ⟨items, hq, hne, ?_⟩
    rcases objGet_mem md (cs "placement") _ hq with ⟨p, hp, hv⟩
    have := hgood p hp
    rw [hv] at this
    exact this

/-- C8 witness. -/
theorem C8_validated_shape_invariant_witness :
    extractMetadata (cs "__metadata__ = \x7bpage: \x27p\x27, placement: [\x27a\x27]\x7d")
        = .ok [(cs "page", .str (cs "p")), (cs "placement", .arr [cs "a"])] ∧
      ((∃ s, objGet [(cs "page", JValue.str (cs "p")),
          (cs "placement", JValue.arr [cs "a"])] (cs "page") = some (.str s)) ∧
        ((∃ s, objGet [(cs "page", JValue.str (cs "p")),
            (cs "placement", JValue.arr [cs "a"])] (cs "placement") = some (.str s)) ∨
          (∃ items, objGet [(cs "page", JValue.str (cs "p")),
              (cs "placement", JValue.arr [cs "a"])] (cs "placement") = some (.arr items) ∧
            items ≠ [] ∧ ∀ x ∈ items, x ≠ []))) :=
  ⟨by decide,
    C8_validated_shape_invariant
      (cs "__metadata__ = \x7bpage: \x27p\x27, placement: [\x27a\x27]\x7d")
      [(cs "page", .str (cs "p")), (cs "placement", .arr [cs "a"])] (by decide)⟩

/-- C10: every value the configuration scanner produces is a string or
an array of strings — never a number (`course: 3` yields the string
`"3"`), so the `typeof === 'number'` branch of the course validation
can never fire on metadata produced by `extract`. -/
theorem C10_scanner_never_yields_numbers :
    (∀ content k v, objGet (parseMetadataContent content) k = some v →
        typeofIsNumber v = false) ∧
      objGet (parseMetadataContent (cs "course: 3")) (cs "course")
        = some (.str (cs "3")) ∧
      (∀ t md v, extractMetadata t = .ok md → objGet md (cs "course") = some v →
        typeofIsNumber v = false) := by
  refine ⟨?_, by decide, ?_⟩
  · intro content k v hv
    rcases objGet_mem _ _ _ hv with ⟨p, hp, he⟩
    have hg := parseMetadataContent_good content p hp
    rw [he] at hg
    cases v with
    | str s => rfl
    | arr items => rfl
    | num n => exact hg.elim
  · intro t md v hex hv
    rcases objGet_mem _ _ _ hv with ⟨p, hp, he⟩
    have hg := extract_good t md hex p hp
    rw [he] at hg
    cases v with
    | str s => rfl
    | arr items => rfl
    | num n => exact hg.elim

/-- C10 witness. -/
theorem C10_scanner_never_yields_numbers_witness :
    objGet (parseMetadataContent (cs "course: 3")) (cs "course")
        = some (.str (cs "3")) ∧
      typeofIsNumber (.str (cs "3")) = false :=
  ⟨C10_scanner_never_yields_numbers.2.1,
    C10_scanner_never_yields_numbers.1 (cs "course: 3") (cs "course") _ (by decide)⟩

/-- C2: for every document body and key, classification tries the
structural (DOM) lookup first, PRE before BLOCK (PRE wins when both
exist); the textual attribute-pattern scan runs only when the
structural pass finds neither, with the same PRE-before-BLOCK
precedence; the not-found error is raised exactly when all four
lookups fail — so a key findable only via malformed markup is resolved
by the fallback scan, never the structural pass. -/
theorem C2_resolution_order (html key : List Char) :
    (domExistsNodes (cs "pre") key (parseHTML html) = true →
      detectPlacementElementType html key = .ok .pre) ∧
    (domExistsNodes (cs "pre") key (parseHTML html) = false →
      domExistsNodes (cs "div") key (parseHTML html) = true →
      detectPlacementElementType html key = .ok .div) ∧
    (domExistsNodes (cs "pre") key (parseHTML html) = false →
      domExistsNodes (cs "div") key (parseHTML html) = false →
      textualExists (cs "pre") html key = true →
      detectPlacementElementType html key = .ok .pre) ∧
    (domExistsNodes (cs "pre") key (parseHTML html) = false →
      domExistsNodes (cs "div") key (parseHTML html) = false →
      textualExists (cs "pre") html key = false →
      textualExists (cs "div") html key = true →
      detectPlacementElementType html key = .ok .div) ∧
    ((∃ m, detectPlacementElementType html key = .error m) ↔
      (domExistsNodes (cs "pre") key (parseHTML html) = false ∧
        domExistsNodes (cs "div") key (parseHTML html) = false ∧
        textualExists (cs "pre") html key = false ∧
        textualExists (cs "div") html key = false)) := by
  refine ⟨?_, ?_, ?_, ?_, ?_⟩
  · intro h1
    simp [detectPlacementElementType, h1]
  · intro h1 h2
    simp [detectPlacementElementType, h1, h2]
  · intro h1 h2 h3
    simp [detectPlacementElementType, h1, h2, h3]
  · intro h1 h2 h3 h4
    simp [detectPlacementElementType, h1, h2, h3, h4]
  · constructor
    · rintro ⟨m, hm⟩
      by_cases h1 : domExistsNodes (cs "pre") key (parseHTML html) = true
      · simp [detectPlacementElementType, h1] at hm
      · by_cases h2 : domExistsNodes (cs "div") key (parseHTML html) = true
        · simp only [Bool.not_eq_true] at h1
          simp [detectPlacementElementType, h1, h2] at hm
        · by_cases h3 : textualExists (cs "pre") html key = true
          · simp only [Bool.not_eq_true] at h1 h2
            simp [detectPlacementElementType, h1, h2, h3] at hm
          · by_cases h4 : textualExists (cs "div") html key = true
            · simp only [Bool.not_eq_true] at h1 h2 h3
              simp [detectPlacementElementType, h1, h2, h3, h4] at hm
            · simp only [Bool.not_eq_true] at h1 h2 h3 h4
              exact ⟨h1, h2, h3, h4⟩
    · rintro ⟨h1, h2, h3, h4⟩
      refine ⟨cs "Failed to detect element type: Placeholder with data-code-placement=\""
        ++ key ++ cs "\" not found", ?_⟩
      simp [detectPlacementElementType, h1, h2, h3, h4]

/-- C2 witness: a PRE placeholder whose attribute value mixes quote
styles (`data-code-placement="x'`) is dropped by the structural parser
but matched by the textual pattern (whose quote classes are
independent), so only the fallback resolves it. -/
theorem C2_resolution_order_witness :
    domExistsNodes (cs "pre") (cs "x")
        (parseHTML (cs "<pre data-code-placement=\"x\x27>code</pre>")) = false ∧
      domExistsNodes (cs "div") (cs "x")
        (parseHTML (cs "<pre data-code-placement=\"x\x27>code</pre>")) = false ∧
      textualExists (cs "pre") (cs "<pre data-code-placement=\"x\x27>code</pre>") (cs "x") = true ∧
      detectPlacementElementType (cs "<pre data-code-placement=\"x\x27>code</pre>") (cs "x")
        = .ok .pre :=
  ⟨by decide, by decide, by decide,
    (C2_resolution_order (cs "<pre data-code-placement=\"x\x27>code</pre>") (cs "x")).2.2.1
      (by decide) (by decide) (by decide)⟩

theorem processLoop_results (proc : List Char → UnitResult) (total : Nat) :
    ∀ (files : List (List Char)) (p0 : Nat),
      (processLoop proc total files p0).1 = files.map (fun f => (f, proc f)) := by
  intro files
  induction files with
  | nil => intro p0; rfl
  | cons f fs ih =>
    intro p0
    simp only [processLoop, List.map_cons]
    rw [ih]

theorem processLoop_progress (proc : List Char → UnitResult) (total : Nat) :
    ∀ (files : List (List Char)) (p0 : Nat),
      (processLoop proc total files p0).2.1.map (fun c => c.processed)
        = List.range' p0 files.length := by
  intro files
  induction files with
  | nil => intro p0; rfl
  | cons f fs ih =>
    intro p0
    simp only [processLoop, List.map_cons, List.length_cons, List.range'_succ]
    rw [ih]

/-- C4: for a run of `N` units where unit `k` fails and the others
succeed, the report's results list is exactly the input files paired
with their outcomes, in order (`N` entries); entry `k-1` is a failure
carrying the failing message; every other unit is still processed and
succeeds; and the `processed` values reported across the progress
calls are `0, 1, …, N-1, N`: monotone from `0` to `N`, with a final
call whose `processed` equals the total. -/
theorem C4_per_unit_isolation_and_progress
    (proc : List Char → UnitResult) (files : List (List Char)) (N k : Nat)
    (msg : List Char) (b : Option (List Char))
    (hN : files.length = N) (hk1 : 1 ≤ k) (hk2 : k ≤ N)
    (hfail : proc (files.getD (k - 1) []) = .failure msg b)
    (hok : ∀ i, i < N → i ≠ k - 1 → isFailure (proc (files.getD i [])) = false) :
    ∃ out, processExercises proc files = .ok out ∧
      out.report.results = files.map (fun f => (f, proc f)) ∧
      out.report.results.length = N ∧
      out.report.results.get? (k - 1) = some (files.getD (k - 1) [], .failure msg b) ∧
      (∀ i, i < N → i ≠ k - 1 →
        isFailure ((out.report.results.getD i ([], .failure [] none)).2) = false) ∧
      out.progressCalls.map (fun c => c.processed) = List.range N ++ [N] ∧
      List.Chain' (· ≤ ·) (out.progressCalls.map (fun c => c.processed)) ∧
      (out.progressCalls.map (fun c => c.processed)).getLast? = some N := by
  have hlen0 : files.length ≠ 0 := by omega
  have hne : (files.length == 0) = false := by simp [hlen0]
  have key : processExercises proc files =
      .ok ⟨⟨files.length, files.length,
            ((processLoop proc files.length files 0).1.filter
              (fun e => !(isFailure e.2))).length,
            ((processLoop proc files.length files 0).1.filter
              (fun e => isFailure e.2)).length,
            (processLoop proc files.length files 0).1⟩,
          (processLoop proc files.length files 0).2.1
            ++ [⟨files.length, files.length, [], 100⟩],
          (processLoop proc files.length files 0).2.2⟩ := by
    unfold processExercises
    rw [hne]
    simp only [Bool.false_eq_true, if_false]
  have hprog : ((processLoop proc files.length files 0).2.1
        ++ [(⟨files.length, files.length, [], 100⟩ : ProgressCall)]).map
          (fun c => c.processed)
      = List.range N ++ [N] := by
    simp only [List.map_append]
    rw [processLoop_progress proc files.length files 0]
    simp [hN, List.range_eq_range']
  refine ⟨_, key, ?_, ?_, ?_, ?_, ?_, ?_, ?_⟩
  · simpa using processLoop_results proc files.length files 0
  · dsimp only
    rw [processLoop_results proc files.length files 0]
    simpa using hN
  · have hklt : k - 1 < files.length := by omega
    have hfail2 : proc files[k - 1] = .failure msg b := by
      rwa [List.getD_eq_getElem _ _ hklt] at hfail
    dsimp only
    rw [processLoop_results proc files.length files 0]
    rw [List.get?_eq_getElem?, List.getElem?_map,
      List.getElem?_eq_getElem (by simpa using hklt)]
    simp [List.getD_eq_getElem _ _ hklt, hfail2, List.getElem?_eq_getElem hklt]
  · intro i hi hne2
    have hilt : i < files.length := by omega
    have h2 : isFailure (proc files[i]) = false := by
      have h3 := hok i hi hne2
      rwa [List.getD_eq_getElem _ _ hilt] at h3
    dsimp only
    rw [processLoop_results proc files.length files 0]
    rw [List.getD_eq_getElem _ _ (by simpa using hilt)]
    simp [h2]
  · exact hprog
  · rw [hprog, ← List.range_succ, List.chain'_range_succ]
    omega
  · rw [hprog]
    exact List.getLast?_concat _

/-- C4 witness: three units, the second failing. -/
theorem C4_per_unit_isolation_and_progress_witness :
    ∃ out, processExercises
        (fun f => if f == cs "b.py" then .failure (cs "boom") none
          else .success ⟨cs "p", cs "x", []⟩)
        [cs "a.py", cs "b.py", cs "c.py"] = .ok out ∧
      out.report.results = [cs "a.py", cs "b.py", cs "c.py"].map
        (fun f => (f, if f == cs "b.py" then UnitResult.failure (cs "boom") none
          else .success ⟨cs "p", cs "x", []⟩)) ∧
      out.report.results.length = 3 ∧
      out.report.results.get? 1
        = some (cs "b.py", .failure (cs "boom") none) ∧
      (∀ i, i < 3 → i ≠ 1 →
        isFailure ((out.report.results.getD i ([], .failure [] none)).2) = false) ∧
      out.progressCalls.map (fun c => c.processed) = List.range 3 ++ [3] ∧
      List.Chain' (· ≤ ·) (out.progressCalls.map (fun c => c.processed)) ∧
      (out.progressCalls.map (fun c => c.processed)).getLast? = some 3 := by
  have h := C4_per_unit_isolation_and_progress
    (fun f => if f == cs "b.py" then .failure (cs "boom") none
      else .success ⟨cs "p", cs "x", []⟩)
    [cs "a.py", cs "b.py", cs "c.py"] 3 2 (cs "boom") none
    (by decide) (by decide) (by decide) (by decide)
    (by
      intro i hi hne
      interval_cases i
      · decide
      · exact absurd rfl hne
      · decide)
  simpa using h

/-- A `processPythonFile` success determines a successful extraction
of the same metadata. -/
theorem processPythonFile_ok_extract (t : List Char) (md : Obj) (code : List Char)
    (h : processPythonFile t = .ok (md, code)) : extractMetadata t = .ok md := by
  unfold processPythonFile at h
  cases he : extractMetadata t with
  | noBlock => rw [he] at h; cases h
  | failed m => rw [he] at h; cases h
  | ok md2 => rw [he] at h; cases h; rfl

/-- If the first `i` placement keys succeed (ending at body `bi`) and
key `i` fails, the whole loop fails with that message and the body at
the moment of the throw is `bi`. -/
theorem runPlacements_fail_at (includeLN : Bool) (pageName code : List Char) :
    ∀ (keys : List (List Char)) (i : Nat) (body bi m : List Char),
      applyPrefix includeLN pageName code body (keys.take i) = some bi →
      i < keys.length →
      placementStep includeLN pageName code bi (keys.getD i []) = .error m →
      runPlacements includeLN pageName code body keys = .error (m, bi) := by
  intro keys
  induction keys with
  | nil => intro i body bi m hpre hi hstep; simp at hi
  | cons k ks ih =>
    intro i body bi m hpre hi hstep
    cases i with
    | zero =>
      simp only [List.take_zero, applyPrefix, Option.some_inj] at hpre
      subst hpre
      simp only [List.getD_cons_zero] at hstep
      simp only [runPlacements, hstep]
    | succ n =>
      rw [List.take_succ_cons] at hpre
      simp only [applyPrefix] at hpre
      cases hs : placementStep includeLN pageName code body k with
      | error e => rw [hs] at hpre; cases hpre
      | ok r =>
        rw [hs] at hpre
        simp only [List.getD_cons_succ] at hstep
        simp only [runPlacements, hs]
        rw [ih n r.1 bi m hpre (by simpa using hi) hstep]

/-- C1: for a unit whose metadata carries a placement array, the
insertions are applied sequentially against the progressively updated
in-memory body in the order supplied; when key `i` fails to resolve
after keys `0..i-1` succeeded, the unit result is a failure whose
in-memory body still carries exactly those earlier insertions, the
document write (`updatePage`) is never invoked for the unit, and the
failure message wraps the failing key's message. -/
theorem C1_partial_placement_failure
    (includeLN : Bool) (pages : List Char → Option (List Char))
    (filePath fileContent : List Char) (md : Obj) (code pg body0 : List Char)
    (ks : List (List Char)) (i : Nat) (bi m : List Char)
    (hfile : processPythonFile fileContent = .ok (md, code))
    (hpage : objGet md (cs "page") = some (.str pg))
    (hplace : objGet md (cs "placement") = some (.arr ks))
    (hbody : pages pg = some body0)
    (hpre : applyPrefix includeLN pg code body0 (ks.take i) = some bi)
    (hi : i < ks.length)
    (hstep : placementStep includeLN pg code bi (ks.getD i []) = .error m) :
    processSingleFile includeLN pages filePath fileContent
        = .failure (wrapUnitError filePath m) (some bi) ∧
      unitWrites (processSingleFile includeLN pages filePath fileContent) = [] := by
  have hval : validateMetadata md = .ok () :=
    extract_validates fileContent md (processPythonFile_ok_extract _ _ _ hfile)
  have hrun := runPlacements_fail_at includeLN pg code ks i body0 bi m hpre hi hstep
  have hmain : processSingleFile includeLN pages filePath fileContent
      = .failure (wrapUnitError filePath m) (some bi) := by
    simp only [processSingleFile, hfile, hval, hpage, hplace, Option.getD_some,
      placementKeys, hbody, hrun]
  exact ⟨hmain, by rw [hmain]; rfl⟩

/-- C1 witness: the example unit's second key is missing from the
page, so the first insertion stays applied in memory, the write never
happens, and the unit fails. -/
theorem C1_partial_placement_failure_witness :
    processSingleFile false exPages (cs "f.py") exFileContent
        = .failure
          (wrapUnitError (cs "f.py")
            (cs "Placement \x27b\x27 not found in page \x27pg\x27: Failed to detect element type: Placeholder with data-code-placement=\"b\" not found"))
          (some (cs "<p>t</p><pre data-code-placement=\"a\"><code class=\"language-python\">print(1)</code></pre>")) ∧
      unitWrites (processSingleFile false exPages (cs "f.py") exFileContent) = [] :=
  C1_partial_placement_failure false exPages (cs "f.py") exFileContent
    [(cs "page", .str (cs "pg")), (cs "placement", .arr [cs "a", cs "b"])]
    (cs "print(1)") (cs "pg") exBody [cs "a", cs "b"] 1
    (cs "<p>t</p><pre data-code-placement=\"a\"><code class=\"language-python\">print(1)</code></pre>")
    (cs "Placement \x27b\x27 not found in page \x27pg\x27: Failed to detect element type: Placeholder with data-code-placement=\"b\" not found")
    (by decide) (by decide) (by decide) (by decide) (by decide) (by decide) (by decide)

/-- C3 counterexample: inserting content containing `"` at a PRE-kind
site resolved structurally leaves the quote unescaped in the result
(the `textContent` / serialization route escapes only `& < >`), so it
is not the case that every occurrence of `& < > " '` is HTML-escaped
on every PRE-kind insert. -/
theorem C3_counterexample_quote_unescaped_on_dom_path :
    insertContentAtPlaceholder (cs "<pre data-code-placement=\"k\">old</pre>") (cs "k")
        (cs "say \"hi\"") true false []
      = .ok (cs "<pre data-code-placement=\"k\"><code class=\"language-python\">say \"hi\"</code></pre>") ∧
    hasSubstr (cs "<pre data-code-placement=\"k\"><code class=\"language-python\">say \"hi\"</code></pre>")
        (cs "&quot;") = false ∧
    hasSubstr (cs "<pre data-code-placement=\"k\"><code class=\"language-python\">say \"hi\"</code></pre>")
        (cs "say \"hi\"") = true := by
  refine ⟨by decide, by decide, by decide⟩

theorem replaceSubstitution_id (matched before after l : List Char)
    (h : ¬ '$' ∈ l) : replaceSubstitution matched before after l = l := by
  induction l with
  | nil => rfl
  | cons c rest ih =>
    have hc : c ≠ '$' := fun hce => h (hce ▸ List.mem_cons_self _ _)
    have hcb : (c == '$') = false := by simpa using hc
    have hrest : ¬ '$' ∈ rest := fun hm => h (List.mem_cons_of_mem _ hm)
    rw [replaceSubstitution.eq_def]
    simp [hcb, ih hrest]

theorem escChar_no_dollar {c : Char} (hc : c ≠ '$') : ¬ '$' ∈ escChar c := by
  intro hmem
  unfold escChar at hmem
  split at hmem
  · exact absurd hmem (by decide)
  · exact absurd hmem (by decide)
  · exact absurd hmem (by decide)
  · exact absurd hmem (by decide)
  · exact absurd hmem (by decide)
  · exact hc (List.mem_singleton.mp hmem).symm

theorem escapeHtml_no_dollar {content : List Char} (h : ¬ '$' ∈ content) :
    ¬ '$' ∈ escapeHtml content := by
  intro hmem
  rw [escapeHtml] at hmem
  rcases List.mem_flatten.mp hmem with ⟨piece, hpiece, hdollar⟩
  rcases List.mem_map.mp hpiece with ⟨c, hcmem, rfl⟩
  exact escChar_no_dollar (fun hce => h (hce ▸ hcmem)) hdollar

/-- C3 (amended): which characters are escaped depends on the path.
On a PRE-kind site resolved structurally, the content becomes the text
of a `code.language-python` child and its serialization escapes
exactly `& < >`, leaving `"` and `'` unchanged.  On a PRE-kind site
resolved by the textual fallback, `escapeHtml` escapes all five of
`& < > " '` before wrapping in `code.language-python`; the spliced
replacement string additionally undergoes the `$`-substitution of
JavaScript `String.replace`, so the byte-exact form is stated for
content free of `$`.  On a BLOCK-kind (div) site the content is parsed
as an HTML fragment and becomes the element's children with no
escaping of its markup; reading the page back re-serializes that
fragment, which normalizes it (a bare `&` in text returns as `&amp;`,
a valueless attribute gains `=""`).  Shown for every content at
representative sites of each kind. -/
theorem C3_escaping_by_path (content : List Char) :
    insertContentAtPlaceholder (cs "<pre data-code-placement=\"k\">old</pre>") (cs "k")
        content true false []
      = .ok (serializeNodes [HNode.elem (cs "pre") [(cs "data-code-placement", cs "k")]
          [.elem (cs "code") [(cs "class", cs "language-python")] [.text content]]]) ∧
    serializeText content = (content.map escSerText).flatten ∧
    serializeText (cs "&<>\"\x27") = cs "&amp;&lt;&gt;\"\x27" ∧
    (¬ '$' ∈ content →
      insertContentAtPlaceholder (cs "<!-- <pre data-code-placement=\"k\">old</pre> -->") (cs "k")
          content true false []
        = .ok (List.take 5 (cs "<!-- <pre data-code-placement=\"k\">old</pre> -->")
            ++ fallbackPreReplacement (cs "pre") (cs "k") (escapeHtml content) []
            ++ List.drop 43 (cs "<!-- <pre data-code-placement=\"k\">old</pre> -->"))) ∧
    escapeHtml content = (content.map escChar).flatten ∧
    escapeHtml (cs "&<>\"\x27") = cs "&amp;&lt;&gt;&quot;&#039;" ∧
    insertContentAtPlaceholder (cs "<div data-code-placement=\"k\">old</div>") (cs "k")
        content false false []
      = .ok (serializeNodes [HNode.elem (cs "div") [(cs "data-code-placement", cs "k")]
          (parseHTML content)]) ∧
    insertContentAtPlaceholder (cs "<div data-code-placement=\"k\">old</div>") (cs "k")
        (cs "x & y") false false []
      = .ok (cs "<div data-code-placement=\"k\">x &amp; y</div>") ∧
    insertContentAtPlaceholder (cs "<div data-code-placement=\"k\">old</div>") (cs "k")
        (cs "<div data-datacamp-exercise data-lang=\"python\"></div>") false false []
      = .ok (cs "<div data-code-placement=\"k\"><div data-datacamp-exercise=\"\" data-lang=\"python\"></div></div>") := by
  refine ⟨rfl, rfl, by decide, ?_, rfl, by decide, rfl, by decide, by decide⟩
  intro hnd
  have hrepl : ¬ '$' ∈ fallbackPreReplacement (cs "pre") (cs "k") (escapeHtml content) [] := by
    intro hmem
    simp [fallbackPreReplacement, cs, List.mem_append, List.mem_cons] at hmem
    exact escapeHtml_no_dollar hnd hmem
  have hbase : insertContentAtPlaceholder
        (cs "<!-- <pre data-code-placement=\"k\">old</pre> -->") (cs "k") content true false []
      = .ok (List.take 5 (cs "<!-- <pre data-code-placement=\"k\">old</pre> -->")
          ++ replaceSubstitution
              (List.take 38 (List.drop 5 (cs "<!-- <pre data-code-placement=\"k\">old</pre> -->")))
              (List.take 5 (cs "<!-- <pre data-code-placement=\"k\">old</pre> -->"))
              (List.drop 43 (cs "<!-- <pre data-code-placement=\"k\">old</pre> -->"))
              (fallbackPreReplacement (cs "pre") (cs "k") (escapeHtml content) [])
          ++ List.drop 43 (cs "<!-- <pre data-code-placement=\"k\">old</pre> -->")) := rfl
  rw [hbase, replaceSubstitution_id _ _ _ _ hrepl]

/-- C3 witness: the fallback byte-exact form instantiated at the
dollar-free content `a<b`. -/
theorem C3_escaping_by_path_witness :
    ¬ '$' ∈ cs "a<b" ∧
    insertContentAtPlaceholder (cs "<!-- <pre data-code-placement=\"k\">old</pre> -->") (cs "k")
        (cs "a<b") true false []
      = .ok (List.take 5 (cs "<!-- <pre data-code-placement=\"k\">old</pre> -->")
          ++ fallbackPreReplacement (cs "pre") (cs "k") (escapeHtml (cs "a<b")) []
          ++ List.drop 43 (cs "<!-- <pre data-code-placement=\"k\">old</pre> -->")) :=
  ⟨by decide, (C3_escaping_by_path (cs "a<b")).2.2.2.1 (by decide)⟩

theorem dedupKeepFirstAux_mem (fuel : Nat) :
    ∀ (l : List (List Char)) (x : List Char),
      x ∈ dedupKeepFirstAux fuel l → x ∈ l := by
  induction fuel with
  | zero => intro l x hx; cases l <;> cases hx
  | succ fuel ih =>
    intro l x hx
    cases l with
    | nil => cases hx
    | cons a as =>
      rw [show dedupKeepFirstAux (fuel + 1) (a :: as)
          = a :: dedupKeepFirstAux fuel (as.filter (fun y => !(y == a))) from rfl] at hx
      rcases List.mem_cons.mp hx with h1 | h2
      · exact h1 ▸ List.mem_cons_self _ _
      · exact List.mem_cons_of_mem _ (List.mem_of_mem_filter (ih _ _ h2))

theorem dedupKeepFirstAux_nodup (fuel : Nat) :
    ∀ (l : List (List Char)), l.length < fuel → (dedupKeepFirstAux fuel l).Nodup := by
  induction fuel with
  | zero => intro l h; omega
  | succ fuel ih =>
    intro l h
    cases l with
    | nil => simp [dedupKeepFirstAux]
    | cons a as =>
      rw [show dedupKeepFirstAux (fuel + 1) (a :: as)
          = a :: dedupKeepFirstAux fuel (as.filter (fun y => !(y == a))) from rfl,
        List.nodup_cons]
      constructor
      · intro hmem
        have := dedupKeepFirstAux_mem fuel _ _ hmem
        rcases List.mem_filter.mp this with ⟨_, hne⟩
        simp at hne
      · apply ih
        have := List.length_filter_le (fun y => !(y == a)) as
        simp only [List.length_cons] at h
        omega

theorem classTokens_nodup (s : List Char) : (classTokens s).Nodup := by
  unfold classTokens dedupKeepFirst
  exact dedupKeepFirstAux_nodup _ _ (by omega)

theorem foldl_classAddToken_spec :
    ∀ (customs : List (List Char)) (t1 : List (List Char)),
      ∃ adds, customs.foldl classAddToken t1 = t1 ++ adds ∧
        adds.Sublist customs ∧
        (t1.Nodup → (t1 ++ adds).Nodup) ∧
        (∀ c ∈ customs, c ∈ t1 ++ adds) := by
  intro customs
  induction customs with
  | nil =>
    intro t1
    exact ⟨[], by simp, List.Sublist.refl _, by simp, by simp⟩
  | cons c cust ih =>
    intro t1
    simp only [List.foldl_cons]
    by_cases hc : (t1.any (fun t => t == c)) = true
    · have hstep : classAddToken t1 c = t1 := by simp [classAddToken, hc]
      rw [hstep]
      rcases ih t1 with ⟨adds, heq, hsub, hnd, hmem⟩
      refine ⟨adds, heq, hsub.cons _, hnd, ?_⟩
      intro d hd
      rcases List.mem_cons.mp hd with rfl | hd
      · apply List.mem_append_left
        simpa using hc
      · exact hmem d hd
    · have hstep : classAddToken t1 c = t1 ++ [c] := by simp [classAddToken, hc]
      rw [hstep]
      rcases ih (t1 ++ [c]) with ⟨adds, heq, hsub, hnd, hmem⟩
      refine ⟨c :: adds, by simpa using heq, hsub.cons₂ _, ?_, ?_⟩
      · intro hn
        have : (t1 ++ [c]).Nodup := by
          rw [List.nodup_append]
          refine ⟨hn, List.nodup_singleton _, ?_⟩
          intro x hx
          simp only [List.mem_singleton]
          intro hxc
          subst hxc
          have : t1.any (fun t => t == x) = true := by
            simp only [List.any_eq_true]
            exact ⟨x, hx, by simp⟩
          exact hc this
        have h2 := hnd this
        simpa using h2
      · intro d hd
        rcases List.mem_cons.mp hd with rfl | hd
        · simp
        · have := hmem d hd
          simpa using this

/-- C5 counterexample: on the textual fallback path, the `line-numbers`
marker is withheld whenever the string `line-numbers` occurs anywhere
inside the existing class value — here the single class
`foo-line-numbers` — so the requested marker is not merged in, contrary
to the claimed duplicate-free merge on both paths. -/
theorem C5_counterexample_fallback_substring_skip :
    insertContentAtPlaceholder
        (cs "<!-- <pre data-code-placement=\"x\" class=\"foo-line-numbers\">y</pre> -->")
        (cs "x") (cs "code") true true []
      = .ok (cs "<!-- <pre class=\"foo-line-numbers\" data-code-placement=\"x\"><code class=\"language-python\">code</code></pre> -->") ∧
    hasSubstr
        (cs "<!-- <pre class=\"foo-line-numbers\" data-code-placement=\"x\"><code class=\"language-python\">code</code></pre> -->")
        (cs "foo-line-numbers line-numbers") = false := by
  refine ⟨by decide, by decide⟩

/-- C5 (amended): on the structural path the class merge behaves as
claimed: the result is the dedup-kept-first existing tokens followed by
the newly added ones (the line-numbers marker first, then the custom
classes in the order given, each skipped exactly when already present),
the result has no duplicates, and when nothing needs adding the
original attribute value is kept verbatim.  On the textual fallback
path the existing class string is treated as one unit: the line-numbers
marker is skipped by a substring test (see the counterexample) and
custom classes are only compared against the whole existing string, so
a duplicate of an individual existing class can remain, as the last
conjunct shows concretely. -/
theorem C5_class_merge_by_path (orig : List Char) (includeLN : Bool)
    (customs : List (List Char)) :
    (∃ adds,
      List.Sublist adds ((if includeLN then [cs "line-numbers"] else []) ++ customs) ∧
      (classTokens orig ++ adds).Nodup ∧
      (includeLN = true → cs "line-numbers" ∈ classTokens orig ++ adds) ∧
      (∀ c ∈ customs, c ∈ classTokens orig ++ adds) ∧
      classListTarget orig includeLN customs
        = (if adds = [] then orig else joinSpace (classTokens orig ++ adds))) ∧
    insertContentAtPlaceholder (cs "<pre class=\"a b a\" data-code-placement=\"k\">old</pre>")
        (cs "k") (cs "c") true true (cs "b x")
      = .ok (cs "<pre class=\"a b line-numbers x\" data-code-placement=\"k\"><code class=\"language-python\">c</code></pre>") ∧
    insertContentAtPlaceholder (cs "<!-- <pre data-code-placement=\"x\" class=\"a b\">y</pre> -->")
        (cs "x") (cs "code") true false (cs "a")
      = .ok (cs "<!-- <pre class=\"a b a\" data-code-placement=\"x\"><code class=\"language-python\">code</code></pre> -->") := by
  refine ⟨?_, by decide, by decide⟩
  by_cases hln : (includeLN && !((classTokens orig).any (fun t => t == cs "line-numbers"))) = true
  · rcases foldl_classAddToken_spec customs (classTokens orig ++ [cs "line-numbers"])
      with ⟨adds, heq, hsub, hnd, hmem⟩
    obtain ⟨hln1, hln2⟩ : includeLN = true ∧
        (!((classTokens orig).any (fun t => t == cs "line-numbers"))) = true := by
      simpa [Bool.and_eq_true] using hln
    have hnotin : cs "line-numbers" ∉ classTokens orig := by
      intro hmem2
      simp only [Bool.not_eq_true', List.any_eq_false] at hln2
      exact absurd (by simp : (cs "line-numbers" == cs "line-numbers") = true)
        (by simpa using hln2 _ hmem2)
    refine ⟨cs "line-numbers" :: adds, ?_, ?_, ?_, ?_, ?_⟩
    · rw [if_pos hln1]
      exact hsub.cons₂ _
    · have hbase : (classTokens orig ++ [cs "line-numbers"]).Nodup := by
        rw [List.nodup_append]
        exact ⟨classTokens_nodup orig, List.nodup_singleton _, by
          intro x hx
          simp only [List.mem_singleton]
          intro hxc
          subst hxc
          exact hnotin hx⟩
      have := hnd hbase
      simpa using this
    · intro _
      exact List.mem_append_right _ (List.mem_cons_self _ _)
    · intro c hc
      have := hmem c hc
      simpa using this
    · simp only [classListTarget]
      rw [if_pos hln]
      rw [heq]
      have hne : classTokens orig ++ [cs "line-numbers"] ++ adds ≠ classTokens orig := by
        intro hcontra
        have hlen := congrArg List.length hcontra
        simp [List.length_append] at hlen
      have hbeq : ((classTokens orig ++ [cs "line-numbers"] ++ adds) == classTokens orig) = false := by
        simp only [beq_eq_false_iff_ne, ne_eq]
        exact hne
      rw [hbeq]
      simp only [Bool.false_eq_true, if_false]
      rw [if_neg (by simp : (cs "line-numbers" :: adds : List (List Char)) ≠ [])]
      congr 1
      simp [List.append_assoc]
  · rcases foldl_classAddToken_spec customs (classTokens orig) with ⟨adds, heq, hsub, hnd, hmem⟩
    refine ⟨adds, ?_, hnd (classTokens_nodup orig), ?_, hmem, ?_⟩
    · exact hsub.trans (List.sublist_append_right _ _)
    · intro hln1
      have hln2 : ((classTokens orig).any (fun t => t == cs "line-numbers")) = true := by
        cases hval : (classTokens orig).any (fun t => t == cs "line-numbers") with
        | true => rfl
        | false => exact absurd (by simp [hln1, hval]) hln
      apply List.mem_append_left
      rcases List.any_eq_true.mp hln2 with ⟨t, ht, hbt⟩
      have : t = cs "line-numbers" := by simpa using hbt
      exact this ▸ ht
    · simp only [classListTarget]
      rw [if_neg hln, heq]
      by_cases hadds : adds = []
      · subst hadds
        simp
      · have hbeq : ((classTokens orig ++ adds) == classTokens orig) = false := by
          simp only [beq_eq_false_iff_ne, ne_eq]
          intro hcontra
          have hlen := congrArg List.length hcontra
          simp [List.length_append] at hlen
          exact hadds hlen
        rw [hbeq]
        simp only [Bool.false_eq_true, if_false]
        rw [if_neg hadds]

/-! ## Marker-occurrence infrastructure for the strip lemmas -/

theorem substrAt_iff_window {t pat : List Char} {i : Nat} :
    substrAt t pat i = true ↔ (t.drop i).take pat.length = pat := by
  unfold substrAt
  exact beq_iff_eq

theorem markerAt_window {t : List Char} {i : Nat} (h : markerAt t i = true) :
    (t.drop i).take 12 = metaMarker := by
  unfold markerAt at h
  rw [substrAt_iff_window] at h
  exact h

theorem markerAt_le_length {t : List Char} {i : Nat} (h : markerAt t i = true) :
    i + 12 ≤ t.length := by
  have hw := markerAt_window h
  have hlen := congrArg List.length hw
  simp only [List.length_take, List.length_drop] at hlen
  rw [show metaMarker.length = 12 from rfl] at hlen
  omega

theorem markerAt_getD {t : List Char} {i : Nat} (h : markerAt t i = true)
    (k : Nat) (hk : k < 12) : t.getD (i + k) ' ' = metaMarker.getD k ' ' := by
  have hw := markerAt_window h
  have hlen := markerAt_le_length h
  have hk2 : k < ((t.drop i).take 12).length := by
    simp only [List.length_take, List.length_drop]
    omega
  have hik : i + k < t.length := by omega
  have h2 : metaMarker.getD k ' ' = ((t.drop i).take 12).getD k ' ' := by rw [hw]
  rw [h2, List.getD_eq_getElem _ ' ' hk2, List.getD_eq_getElem t ' ' hik,
    List.getElem_take, List.getElem_drop]

theorem metaMarker_no_NL : ∀ k, k < 12 → isNL (metaMarker.getD k ' ') = false := by decide

theorem hasSubstr_marker_iff {t : List Char} :
    hasSubstr t metaMarker = true ↔ ∃ i, markerAt t i = true := by
  unfold hasSubstr
  rw [List.any_eq_true]
  constructor
  · rintro ⟨i, _, hi⟩
    exact ⟨i, hi⟩
  · rintro ⟨i, hi⟩
    refine ⟨i, ?_, hi⟩
    rw [List.mem_range]
    have := markerAt_le_length hi
    omega

theorem substrAt_embed {x pat : List Char} {i : Nat} (h : substrAt x pat i = true)
    (u v : List Char) : substrAt (u ++ (x ++ v)) pat (u.length + i) = true := by
  rw [substrAt_iff_window] at h ⊢
  by_cases hpat : pat = []
  · subst hpat
    simp
  · have hlen := congrArg List.length h
    simp only [List.length_take, List.length_drop] at hlen
    have hplen : 0 < pat.length := List.length_pos.mpr hpat
    have hfit : i + pat.length ≤ x.length := by omega
    have hd1 : (u ++ (x ++ v)).drop (u.length + i) = x.drop i ++ v := by
      rw [List.drop_append_eq_append_drop]
      rw [show (u.length + i - u.length) = i from by omega]
      rw [List.drop_eq_nil_of_le (by omega : u.length ≤ u.length + i)]
      rw [List.nil_append, List.drop_append_eq_append_drop]
      rw [show (i - x.length) = 0 from by omega, List.drop_zero]
    rw [hd1,
      List.take_append_of_le_length (by rw [List.length_drop]; omega)]
    exact h

theorem seam_no_new_marker {t : List Char} {p e q : Nat}
    (hp : p = 0 ∨ isNL (t.getD (p - 1) ' ') = true)
    (hple : p ≤ t.length)
    (h : substrAt (t.take p ++ t.drop e) metaMarker q = true) :
    ∃ j, markerAt t j = true ∧ (j + 12 ≤ p ∨ e ≤ j) := by
  have hlenA : (t.take p).length = p := by
    rw [List.length_take]
    exact Nat.min_eq_left hple
  by_cases hq1 : q + 12 ≤ p
  · refine ⟨q, ?_, Or.inl hq1⟩
    unfold markerAt
    rw [substrAt_iff_window] at h ⊢
    rw [show metaMarker.length = 12 from rfl] at h ⊢
    rw [List.drop_append_of_le_length (show q ≤ (t.take p).length by rw [hlenA]; omega)] at h
    rw [List.take_append_of_le_length
      (show (12 : Nat) ≤ ((t.take p).drop q).length by
        rw [List.length_drop, hlenA]; omega)] at h
    rw [List.drop_take] at h
    calc (t.drop q).take 12
        = ((t.drop q).take (p - q)).take 12 := by
          rw [List.take_take, Nat.min_eq_left (by omega)]
    _ = metaMarker := h
  · by_cases hq2 : p ≤ q
    · refine ⟨e + (q - p), ?_, Or.inr (by omega)⟩
      unfold markerAt
      rw [substrAt_iff_window] at h ⊢
      rw [show metaMarker.length = 12 from rfl] at h ⊢
      rw [List.drop_append_eq_append_drop, hlenA] at h
      rw [List.drop_eq_nil_of_le (show (t.take p).length ≤ q by rw [hlenA]; omega),
        List.nil_append] at h
      rw [List.drop_drop] at h
      exact h
    · exfalso
      push_neg at hq1 hq2
      have hp2 : isNL (t.getD (p - 1) ' ') = true := by
        rcases hp with rfl | hp
        · omega
        · exact hp
      have hm : markerAt (t.take p ++ t.drop e) q = true := h
      have hk : p - 1 - q < 12 := by omega
      have hchar := markerAt_getD hm (p - 1 - q) hk
      rw [show q + (p - 1 - q) = p - 1 from by omega] at hchar
      have hidx : p - 1 < (t.take p).length := by omega
      rw [List.getD_append _ _ _ _ hidx] at hchar
      have hgd : (t.take p).getD (p - 1) ' ' = t.getD (p - 1) ' ' := by
        rw [List.getD_eq_getElem _ _ hidx, List.getElem_take,
          List.getD_eq_getElem t ' ' (by omega : p - 1 < t.length)]
      rw [hgd] at hchar
      have := metaMarker_no_NL (p - 1 - q) hk
      rw [← hchar] at this
      rw [this] at hp2
      cases hp2

theorem markerCount_two {t : List Char} {j1 j2 : Nat} (hne : j1 ≠ j2)
    (h1 : markerAt t j1 = true) (h2 : markerAt t j2 = true) :
    2 ≤ markerCount t := by
  unfold markerCount
  have hmem : ∀ j, markerAt t j = true →
      j ∈ (List.range t.length).filter (fun i => markerAt t i) := by
    intro j hj
    rw [List.mem_filter, List.mem_range]
    exact ⟨by have := markerAt_le_length hj; omega, hj⟩
  have hsub : ([j1, j2] : List Nat) ⊆ (List.range t.length).filter (fun i => markerAt t i) := by
    intro x hx
    rcases List.mem_cons.mp hx with rfl | hx
    · exact hmem _ h1
    · rcases List.mem_cons.mp hx with rfl | hx
      · exact hmem _ h2
      · cases hx
  have hnd : ([j1, j2] : List Nat).Nodup := by simp [hne]
  have := (hnd.subperm hsub).length_le
  simpa using this

theorem jsTrim_decomposition (s : List Char) :
    ∃ u v, s = u ++ (jsTrim s ++ v) := by
  refine ⟨s.takeWhile isJsWS,
    ((s.dropWhile isJsWS).reverse.takeWhile isJsWS).reverse, ?_⟩
  unfold jsTrim
  conv_lhs => rw [← List.takeWhile_append_dropWhile isJsWS s]
  congr 1
  conv_lhs => rw [← List.reverse_reverse (s.dropWhile isJsWS),
    ← List.takeWhile_append_dropWhile isJsWS (s.dropWhile isJsWS).reverse]
  rw [List.reverse_append]

theorem marker_in_trim {s : List Char} (h : hasSubstr (jsTrim s) metaMarker = true) :
    ∃ j, markerAt s j = true := by
  rcases hasSubstr_marker_iff.mp h with ⟨i, hi⟩
  rcases jsTrim_decomposition s with ⟨u, v, hs⟩
  refine ⟨u.length + i, ?_⟩
  unfold markerAt
  rw [hs]
  exact substrAt_embed hi u v

/-! ## Block-line region lemmas -/

theorem skipWS_ge (t : List Char) (j : Nat) : j ≤ skipWS t j :=
  Nat.le_add_right _ _

theorem findCharFrom_some {t : List Char} {ch : Char} {j c : Nat}
    (h : findCharFrom t ch j = some c) : j ≤ c ∧ c < t.length := by
  unfold findCharFrom at h
  have hmem := List.mem_of_find?_eq_some h
  rw [List.mem_range'] at hmem
  rcases hmem with ⟨x, hx, rfl⟩
  omega

theorem completeAt_some {t : List Char} {i cst c : Nat}
    (h : completeAt t i = some (cst, c)) :
    markerAt t i = true ∧ i + 14 ≤ c ∧ c < t.length := by
  simp only [completeAt] at h
  split at h
  case isTrue hm =>
    split at h
    case isTrue h1 =>
      split at h
      case isTrue h2 =>
        cases hf : findCharFrom t '\x7d' (skipWS t (skipWS t (i + 12) + 1) + 1) with
        | none => rw [hf] at h; cases h
        | some c2 =>
          rw [hf] at h
          cases h
          have hb := findCharFrom_some hf
          have g1 : i + 12 ≤ skipWS t (i + 12) := skipWS_ge _ _
          have g2 : skipWS t (i + 12) + 1 ≤ skipWS t (skipWS t (i + 12) + 1) := skipWS_ge _ _
          exact ⟨hm, by omega, hb.2⟩
      case isFalse => cases h
    case isFalse => cases h
  case isFalse => cases h

theorem lineEnd_le (t : List Char) (j : Nat) : lineEnd t j ≤ t.length := by
  unfold lineEnd
  cases hf : (List.range' j (t.length - j)).find? (fun k => isNL (t.getD k ' ')) with
  | none => simp
  | some k =>
    simp only
    have hmem := List.mem_of_find?_eq_some hf
    rw [List.mem_range'] at hmem
    rcases hmem with ⟨x, hx, rfl⟩
    omega

theorem lineEnd_ge {t : List Char} {j : Nat} (h : j ≤ t.length) : j ≤ lineEnd t j := by
  unfold lineEnd
  cases hf : (List.range' j (t.length - j)).find? (fun k => isNL (t.getD k ' ')) with
  | none => simpa using h
  | some k =>
    simp only
    have hmem := List.mem_of_find?_eq_some hf
    rw [List.mem_range'] at hmem
    rcases hmem with ⟨x, hx, rfl⟩
    omega

theorem lineEnd_NL (t : List Char) (j : Nat) :
    lineEnd t j = t.length ∨ isNL (t.getD (lineEnd t j) ' ') = true := by
  unfold lineEnd
  cases hf : (List.range' j (t.length - j)).find? (fun k => isNL (t.getD k ' ')) with
  | none => exact Or.inl rfl
  | some k =>
    right
    have := List.find?_some hf
    simpa using this

theorem lineEnd_gt {t : List Char} {j : Nat} (hj : j < t.length)
    (hnl : isNL (t.getD j ' ') = false) : j < lineEnd t j := by
  have hge := lineEnd_ge (show j ≤ t.length by omega)
  rcases Nat.lt_or_ge j (lineEnd t j) with hlt | hge2
  · exact hlt
  · have heq : lineEnd t j = j := by omega
    rcases lineEnd_NL t j with he | he
    · omega
    · rw [heq, hnl] at he
      cases he

theorem lineStarts_mem {t : List Char} {p : Nat} (h : p ∈ lineStarts t) :
    p ≤ t.length ∧ (p = 0 ∨ isNL (t.getD (p - 1) ' ') = true) := by
  unfold lineStarts at h
  rw [List.mem_filter, List.mem_range] at h
  rcases h with ⟨h1, h2⟩
  refine ⟨by omega, ?_⟩
  rcases Bool.or_eq_true _ _ ▸ h2 with h3 | h3
  · exact Or.inl (by simpa using h3)
  · exact Or.inr h3

theorem mem_lineStarts {t : List Char} {p : Nat} (h1 : p ≤ t.length)
    (h2 : p = 0 ∨ isNL (t.getD (p - 1) ' ') = true) : p ∈ lineStarts t := by
  unfold lineStarts
  rw [List.mem_filter, List.mem_range]
  refine ⟨by omega, ?_⟩
  rw [Bool.or_eq_true]
  rcases h2 with rfl | h3
  · exact Or.inl (by simp)
  · exact Or.inr h3

theorem exists_line_containing (t : List Char) :
    ∀ i, i < t.length → isNL (t.getD i ' ') = false →
      ∃ p ∈ lineStarts t, p ≤ i ∧ i < lineEnd t p := by
  intro i
  induction i with
  | zero =>
    intro hi hnl
    exact ⟨0, mem_lineStarts (by omega) (Or.inl rfl), Nat.le_refl 0, lineEnd_gt hi hnl⟩
  | succ n ih =>
    intro hi hnl
    by_cases hnlp : isNL (t.getD n ' ') = true
    · refine ⟨n + 1, mem_lineStarts (by omega) (Or.inr (by simpa using hnlp)),
        Nat.le_refl _, lineEnd_gt hi hnl⟩
    · rcases ih (by omega) (by simpa using hnlp) with ⟨p, hp, hpi, hlt⟩
      refine ⟨p, hp, by omega, ?_⟩
      rcases lineEnd_NL t p with he | he
      · omega
      · by_cases hle : lineEnd t p = n + 1
        · rw [hle, hnl] at he
          cases he
        · omega

theorem lastLineMatch_some_of {t : List Char} {p i : Nat}
    (hp : p ≤ i) (hi : i < lineEnd t p) (hc : (completeAt t i).isSome = true) :
    (lastLineMatch t p).isSome = true := by
  unfold lastLineMatch
  by_contra hnone
  rw [Bool.not_eq_true, Option.not_isSome, Option.isNone_iff_eq_none] at hnone
  rw [List.findSome?_eq_none_iff] at hnone
  have hmem : i ∈ (List.range' p (lineEnd t p - p)).reverse := by
    rw [List.mem_reverse, List.mem_range']
    exact ⟨i - p, by omega, by omega⟩
  have hres := hnone i hmem
  cases hcc : completeAt t i with
  | none => rw [hcc] at hc; cases hc
  | some pr => rw [hcc] at hres; cases hres

theorem findRegion_isSome_of_complete {t : List Char} {i : Nat}
    (hc : (completeAt t i).isSome = true) : (findRegion t).isSome = true := by
  have hm : markerAt t i = true := by
    cases hcc : completeAt t i with
    | none => rw [hcc] at hc; cases hc
    | some pr =>
      obtain ⟨cst, c⟩ := pr
      exact (completeAt_some hcc).1
  have hchar : t.getD i ' ' = '_' := by
    have := markerAt_getD hm 0 (by omega)
    simpa using this
  have hnl : isNL (t.getD i ' ') = false := by
    rw [hchar]
    decide
  have hi : i < t.length := by
    have := markerAt_le_length hm
    omega
  rcases exists_line_containing t i hi hnl with ⟨p, hp, hpi, hlt⟩
  have hll := lastLineMatch_some_of hpi hlt hc
  unfold findRegion
  by_contra hnone
  rw [Bool.not_eq_true, Option.not_isSome, Option.isNone_iff_eq_none] at hnone
  rw [List.findSome?_eq_none_iff] at hnone
  have hres := hnone p hp
  cases hl2 : lastLineMatch t p with
  | none => rw [hl2] at hll; cases hll
  | some m => rw [hl2] at hres; cases hres

theorem findRegion_spec {t : List Char} {p e : Nat} (h : findRegion t = some (p, e)) :
    p ∈ lineStarts t ∧
      ∃ i cst c, p ≤ i ∧ completeAt t i = some (cst, c) ∧ e = lineEnd t (c + 1) := by
  unfold findRegion at h
  rcases List.exists_of_findSome?_eq_some h with ⟨p0, hp0, hf⟩
  cases hl : lastLineMatch t p0 with
  | none => rw [hl] at hf; cases hf
  | some m =>
    rw [hl] at hf
    simp only [Option.map_some'] at hf
    injection hf with h12
    injection h12 with h1 h2
    subst h1
    subst h2
    refine ⟨hp0, ?_⟩
    unfold lastLineMatch at hl
    rcases List.exists_of_findSome?_eq_some hl with ⟨i, hi, hfi⟩
    rw [List.mem_reverse, List.mem_range'] at hi
    rcases hi with ⟨x, hx, rfl⟩
    cases hc : completeAt t (p0 + 1 * x) with
    | none => rw [hc] at hfi; cases hfi
    | some pr =>
      obtain ⟨cst, c⟩ := pr
      rw [hc] at hfi
      simp only [Option.map_some'] at hfi
      cases hfi
      exact ⟨p0 + 1 * x, cst, c, by omega, hc, rfl⟩

/-- An `extractMetadata` success means the block regex completed at
some position. -/
theorem extract_ok_complete {t : List Char} {md : Obj}
    (h : extractMetadata t = .ok md) : ∃ i cst c, completeAt t i = some (cst, c) := by
  unfold extractMetadata at h
  cases hb : blockContent t with
  | none => rw [hb] at h; cases h
  | some content =>
    unfold blockContent at hb
    cases hfb : findBlock t with
    | none => rw [hfb] at hb; cases hb
    | some pr =>
      unfold findBlock at hfb
      rcases List.exists_of_findSome?_eq_some hfb with ⟨i, _, hc⟩
      obtain ⟨cst, c⟩ := pr
      exact ⟨i, cst, c, hc⟩

/-- C6 counterexample: on `" a\n__metadata__ = \x7bp: 'x'\x7d"` the
bytes outside the configuration-block line are `" a\n"`, but `strip`
returns `"a"`: the final `trim()` also deletes the leading space and
the line break, so the text outside the removed line is not
byte-identical. -/
theorem C6_counterexample_trim_alters_bytes :
    removeMetadataBlock (cs " a\n__metadata__ = \x7bp: \x27x\x27\x7d") = cs "a" ∧
    cs "a" ≠ cs " a\n" ∧ cs "a" ≠ cs " a" := by
  refine ⟨by decide, by decide, by decide⟩

/-- C6 (amended): for every text on which the block-line regex
matches, `strip` removes exactly the span from the start of the line
containing the marker through the end of the line holding the block's
closing brace — the span starts right after a line terminator (or at
the start), ends right before one (or at the end), and contains a
marker occurrence — and then trims leading and trailing whitespace
from the concatenation of the untouched prefix and suffix. -/
theorem C6_strip_region_and_trim (t : List Char) (p e : Nat)
    (h : findRegion t = some (p, e)) :
    removeMetadataBlock t = jsTrim (t.take p ++ t.drop e) ∧
    p ≤ e ∧ e ≤ t.length ∧
    (p = 0 ∨ isNL (t.getD (p - 1) ' ') = true) ∧
    (e = t.length ∨ isNL (t.getD e ' ') = true) ∧
    (∃ i, p ≤ i ∧ i + 12 ≤ e ∧ markerAt t i = true) := by
  obtain ⟨hp, i, cst, c, hpi, hcomp, he⟩ := findRegion_spec h
  obtain ⟨hm, hic, hclen⟩ := completeAt_some hcomp
  have hple := (lineStarts_mem hp).1
  have hnlp := (lineStarts_mem hp).2
  have hege : c + 1 ≤ lineEnd t (c + 1) := lineEnd_ge (by omega)
  have hele : lineEnd t (c + 1) ≤ t.length := lineEnd_le t (c + 1)
  subst he
  exact ⟨by simp [removeMetadataBlock, h], by omega, hele, hnlp,
    lineEnd_NL t (c + 1), ⟨i, hpi, by omega, hm⟩⟩

/-- C6 witness. -/
theorem C6_strip_region_and_trim_witness :
    findRegion (cs " a\n__metadata__ = \x7bp: \x27x\x27\x7d") = some (3, 26) ∧
    (removeMetadataBlock (cs " a\n__metadata__ = \x7bp: \x27x\x27\x7d")
        = jsTrim ((cs " a\n__metadata__ = \x7bp: \x27x\x27\x7d").take 3
          ++ (cs " a\n__metadata__ = \x7bp: \x27x\x27\x7d").drop 26) ∧
      3 ≤ 26 ∧ 26 ≤ (cs " a\n__metadata__ = \x7bp: \x27x\x27\x7d").length ∧
      (3 = 0 ∨ isNL ((cs " a\n__metadata__ = \x7bp: \x27x\x27\x7d").getD (3 - 1) ' ') = true) ∧
      (26 = (cs " a\n__metadata__ = \x7bp: \x27x\x27\x7d").length ∨
        isNL ((cs " a\n__metadata__ = \x7bp: \x27x\x27\x7d").getD 26 ' ') = true) ∧
      (∃ i, 3 ≤ i ∧ i + 12 ≤ 26 ∧
        markerAt (cs " a\n__metadata__ = \x7bp: \x27x\x27\x7d") i = true)) :=
  ⟨by decide, C6_strip_region_and_trim (cs " a\n__metadata__ = \x7bp: \x27x\x27\x7d") 3 26 (by decide)⟩

/-- C7 counterexample: `strip` replaces only the matched block line,
so when the marker token also occurs elsewhere — here inside a string
literal on the first line — extraction succeeds and the stripped text
still contains `__metadata__`. -/
theorem C7_counterexample_marker_survives :
    extractMetadata
        (cs "a = \x27__metadata__\x27\n__metadata__ = \x7bpage: \x27p\x27, placement: \x27q\x27\x7d")
      = .ok [(cs "page", .str (cs "p")), (cs "placement", .str (cs "q"))] ∧
    hasSubstr (removeMetadataBlock
        (cs "a = \x27__metadata__\x27\n__metadata__ = \x7bpage: \x27p\x27, placement: \x27q\x27\x7d"))
      metaMarker = true := by
  refine ⟨by decide, by decide⟩

/-- C7 (amended): when extraction succeeds and the marker token occurs
exactly once in the source text, the stripped text contains no
occurrence of the marker (the removed line span covers the unique
occurrence, the splice seam sits at line terminators which the marker
cannot straddle, and trimming only deletes characters). -/
theorem C7_strip_removes_unique_marker (t : List Char) (md : Obj)
    (hex : extractMetadata t = .ok md) (hcount : markerCount t = 1) :
    hasSubstr (removeMetadataBlock t) metaMarker = false := by
  obtain ⟨i0, cst0, c0, hcomp0⟩ := extract_ok_complete hex
  have hsome := findRegion_isSome_of_complete (t := t) (i := i0) (by rw [hcomp0]; rfl)
  obtain ⟨⟨p, e⟩, hreg⟩ := Option.isSome_iff_exists.mp hsome
  obtain ⟨hp, i, cst2, c2, hpi, hcomp2, he⟩ := findRegion_spec hreg
  obtain ⟨hm, hic, hclen⟩ := completeAt_some hcomp2
  have hple := (lineStarts_mem hp).1
  have hnlp := (lineStarts_mem hp).2
  have hie : i + 12 ≤ e := by
    subst he
    have := lineEnd_ge (show c2 + 1 ≤ t.length by omega)
    omega
  by_contra hcontra
  rw [Bool.not_eq_false] at hcontra
  rw [show removeMetadataBlock t = jsTrim (t.take p ++ t.drop e) from by
    simp [removeMetadataBlock, hreg]] at hcontra
  obtain ⟨q, hq⟩ := marker_in_trim hcontra
  have hq2 : substrAt (t.take p ++ t.drop e) metaMarker q = true := hq
  obtain ⟨j, hj, hdisj⟩ := seam_no_new_marker hnlp hple hq2
  have hji : j ≠ i := by
    intro heq
    subst heq
    rcases hdisj with hd | hd
    · omega
    · omega
  have := markerCount_two hji hj hm
  omega

/-- C7 witness: a text whose only marker occurrence is the block
line. -/
theorem C7_strip_removes_unique_marker_witness :
    extractMetadata (cs "x = 1\n__metadata__ = \x7bpage: \x27p\x27, placement: \x27q\x27\x7d\ny = 2")
        = .ok [(cs "page", .str (cs "p")), (cs "placement", .str (cs "q"))] ∧
      markerCount (cs "x = 1\n__metadata__ = \x7bpage: \x27p\x27, placement: \x27q\x27\x7d\ny = 2") = 1 ∧
      hasSubstr (removeMetadataBlock
          (cs "x = 1\n__metadata__ = \x7bpage: \x27p\x27, placement: \x27q\x27\x7d\ny = 2"))
        metaMarker = false :=
  ⟨by decide, by decide,
    C7_strip_removes_unique_marker
      (cs "x = 1\n__metadata__ = \x7bpage: \x27p\x27, placement: \x27q\x27\x7d\ny = 2")
      [(cs "page", .str (cs "p")), (cs "placement", .str (cs "q"))]
      (by decide) (by decide)⟩

end DclTool
